import Mathlib

/-!
Verification of the multi-provider inference orchestration layer of the
Ahmad-AI repository (services/aiService.ts and types.ts).

The TypeScript source is shallowly embedded: pure computations become Lean
functions over `List Char` / `String`; each network interaction is
abstracted as an oracle parameter (`respond`, `attempt`, ...) that fixes
the remote backend's observable behaviour, so that the control flow of the
source (retry loops, fallback chains, parsers) is reproduced faithfully
and can be reasoned about for every possible backend behaviour.
-/

namespace AhmadAI

/-! ## Basic character-list utilities (JS string operations) -/

/-- `pat` is a prefix of `l` (character-exact, as JS `startsWith`). -/
def startsWithL : List Char → List Char → Bool
  | [], _ => true
  | _ :: _, [] => false
  | p :: ps, c :: cs => p = c && startsWithL ps cs

/-- `pat` occurs as a contiguous substring of `l` (JS `String.includes`). -/
def containsSeq (pat : List Char) : List Char → Bool
  | [] => startsWithL pat []
  | c :: rest => startsWithL pat (c :: rest) || containsSeq pat rest

/-- Whitespace recognised by JSON.parse and (approximately) by the JS regex
class for whitespace: space, tab, newline, carriage return, form feed,
vertical tab. -/
def isJsWhitespace (c : Char) : Bool :=
  c = ' ' || c = '\t' || c = '\n' || c = '\r' || c = '\x0c' || c = '\x0b'

/-! ## Data model (`types.ts`) -/

/-- The `AIProvider` union type of `types.ts`. -/
inductive AIProvider where
  | gemini
  | openrouter
  | huggingface
  | hybrid
deriving DecidableEq

instance : Inhabited AIProvider := ⟨AIProvider.gemini⟩

/-- `AISettings` of `types.ts`, restricted to the fields the orchestration
layer reads (the two key-index fields are never read by `aiService.ts`). -/
structure AISettings where
  provider : AIProvider
  openRouterApiKeys : List String
  huggingFaceApiKeys : List String
  isComplexTaskMode : Bool

/-- The per-request flags of `executeWithFallback` that influence control
flow: whether a structured-output (JSON) response was requested and whether
binary attachments are present (`files.length > 0`). -/
structure FallbackRequest where
  jsonMode : Bool
  hasFiles : Bool

/-- `getOpenRouterKeys` of `aiService.ts`: an absent or empty key array
yields `[]`; in the list model this is the identity. -/
def getOpenRouterKeys (s : AISettings) : List String :=
  s.openRouterApiKeys

/-- `getHuggingFaceKeys` of `aiService.ts`. -/
def getHuggingFaceKeys (s : AISettings) : List String :=
  s.huggingFaceApiKeys

/-! ## Fallback Orchestrator (`executeWithFallback`, lines 448-555)

The per-provider adapter work is abstracted as `attempt`; the swarm
pre-step outcome (only consulted when the request is swarm-eligible) is
abstracted as `swarmResult`. -/

/-- The untried remainder of the provider trial list built by lines
473-481: `gemini` unless it is the chosen provider, then `openrouter` when
keys exist and it is not chosen, then `huggingface` when keys exist and it
is not chosen. -/
def fallbackProvidersTail (s : AISettings) : List AIProvider :=
  (if s.provider ≠ AIProvider.gemini then [AIProvider.gemini] else [])
    ++ (if s.provider ≠ AIProvider.openrouter ∧ getOpenRouterKeys s ≠ [] then
          [AIProvider.openrouter] else [])
    ++ (if s.provider ≠ AIProvider.huggingface ∧ getHuggingFaceKeys s ≠ [] then
          [AIProvider.huggingface] else [])

/-- The full provider trial list of `executeWithFallback`: the chosen
provider is pushed first (line 474). -/
def fallbackProviders (s : AISettings) : List AIProvider :=
  s.provider :: fallbackProvidersTail s

/-- Independent rendering of the trial list following the words of the
spec, section 4.3 step 3: chosen provider first; then the primary provider
if not already chosen; then the marketplace provider if credentials exist
and it is not already chosen; then the inference-endpoint provider if
credentials exist and it is not already chosen. Used to check the claim's
description against the code's list. -/
def specTrialList (s : AISettings) : List AIProvider :=
  let l1 := [s.provider]
  let l2 := if AIProvider.gemini ∉ l1 then l1 ++ [AIProvider.gemini] else l1
  let l3 :=
    if getOpenRouterKeys s ≠ [] ∧ AIProvider.openrouter ∉ l2 then
      l2 ++ [AIProvider.openrouter] else l2
  if getHuggingFaceKeys s ≠ [] ∧ AIProvider.huggingface ∉ l3 then
    l3 ++ [AIProvider.huggingface] else l3

/-- `${lastError instanceof Error ? lastError.message : String(lastError)}`
with `lastError = null` rendering as the string `null`; caught errors are
modelled by their message strings. -/
def showLastOrNull : Option String → String
  | some e => e
  | none => "null"

/-- The aggregate failure message of line 554. -/
def allProvidersFailedMsg (last : Option String) : String :=
  "All AI providers failed. Last error: " ++ showLastOrNull last

/-- The provider loop of lines 485-552: try each provider in order, return
the first success, record a thrown error as `lastError` and continue, and
raise the aggregate error when the list is exhausted. -/
def runProviders (attempt : AIProvider → Except String String) :
    List AIProvider → Option String → Except String String
  | [], last => Except.error (allProvidersFailedMsg last)
  | p :: ps, _last =>
    match attempt p with
    | Except.ok r => Except.ok r
    | Except.error e => runProviders attempt ps (some e)

/-- The guard of line 465: complex-task mode, OpenRouter credentials
present, no attachments, no JSON mode. -/
def swarmEligible (s : AISettings) (req : FallbackRequest) : Bool :=
  s.isComplexTaskMode && !(getOpenRouterKeys s).isEmpty && !req.hasFiles && !req.jsonMode

/-- `executeWithFallback` (lines 448-555) with the swarm pre-step and the
per-provider adapters abstracted as oracles: a swarm-eligible request first
consults the swarm; a swarm success returns immediately, a swarm failure
is logged and falls through to the provider trial loop. -/
def executeWithFallback (attempt : AIProvider → Except String String)
    (swarmResult : Except String String) (s : AISettings) (req : FallbackRequest) :
    Except String String :=
  if swarmEligible s req then
    match swarmResult with
    | Except.ok r => Except.ok r
    | Except.error _ => runProviders attempt (fallbackProviders s) none
  else
    runProviders attempt (fallbackProviders s) none

/-! ## Provider adapters (`callOpenRouter` lines 228-319, `callHuggingFace`
lines 321-384, `callGemini` lines 192-226)

Both retry adapters share the same nested loop shape: for each model in
order, for each credential in order, issue a request and classify the
response. The classification of one response is captured by `StepAction`,
and the nested loops by `keysLoop` / `modelsLoop`, which additionally
return the list of `(model, key)` attempts actually issued (the trace) and
the final `lastError` value. -/

/-- What one classified response does to the retry loop: retry the same
model with the next credential (optionally recording a caught error as
`lastError`), abandon the model (the `break`), or return a success. -/
inductive StepAction where
  | retryKey (newErr : Option String)
  | abandonModel
  | done (text : String)
deriving DecidableEq

/-- How an inner credential loop ended. -/
inductive KeysOutcome where
  | success (text : String)
  | broke
  | exhausted
deriving DecidableEq

/-- `lastError` is overwritten only when a step records an error. -/
def updateLast (newErr last : Option String) : Option String :=
  match newErr with
  | some e => some e
  | none => last

/-- The inner `for (const apiKey of apiKeys)` loop: returns the outcome,
the attempts issued for this model, and the final `lastError`. -/
def keysLoop (act : String → String → StepAction) (model : String) :
    List String → Option String → KeysOutcome × List (String × String) × Option String
  | [], last => (KeysOutcome.exhausted, [], last)
  | k :: ks, last =>
    match act model k with
    | StepAction.retryKey newErr =>
      let r := keysLoop act model ks (updateLast newErr last)
      (r.1, (model, k) :: r.2.1, r.2.2)
    | StepAction.abandonModel => (KeysOutcome.broke, [(model, k)], last)
    | StepAction.done t => (KeysOutcome.success t, [(model, k)], last)

/-- The outer `for (const modelName of modelsToTry)` loop: a success
returns immediately; a broken or exhausted model moves to the next model
with the full credential list. Returns `some text` on success, `none` when
every model×credential combination was exhausted. -/
def modelsLoop (act : String → String → StepAction) (keys : List String) :
    List String → Option String → Option String × List (String × String) × Option String
  | [], last => (none, [], last)
  | m :: ms, last =>
    match keysLoop act m keys last with
    | (KeysOutcome.success t, tr, l) => (some t, tr, l)
    | (KeysOutcome.broke, tr, l) =>
      let r := modelsLoop act keys ms l
      (r.1, tr ++ r.2.1, r.2.2)
    | (KeysOutcome.exhausted, tr, l) =>
      let r := modelsLoop act keys ms l
      (r.1, tr ++ r.2.1, r.2.2)

/-- Observable outcome of one OpenRouter `fetch` for a (model, key) pair:
a thrown error anywhere inside the `try` block (network failure, body
parse failure), a non-ok HTTP status, or an ok response whose extracted
completion text is `content` (the streaming and non-streaming success
paths both return the accumulated/extracted text directly). -/
inductive ORWire where
  | netThrow (e : String)
  | httpError (status : Nat)
  | success (content : String)

/-- Lines 270-276 and the surrounding `try`/`catch` of `callOpenRouter`:
statuses 401/402/429 `continue` with the next credential (without touching
`lastError`); any other non-ok status `break`s out of the credential loop;
a thrown error is caught, recorded and the loop continues; an ok response
returns its content. -/
def classifyOpenRouter : ORWire → StepAction
  | ORWire.netThrow e => StepAction.retryKey (some e)
  | ORWire.httpError st =>
    if st = 401 ∨ st = 402 ∨ st = 429 then StepAction.retryKey none
    else StepAction.abandonModel
  | ORWire.success c => StepAction.done c

/-- `${lastError}` with an undefined `lastError` renders as `undefined`;
caught errors are modelled by their message strings. -/
def showLastOrUndefined : Option String → String
  | some e => e
  | none => "undefined"

/-- The aggregate failure message of line 318. -/
def openRouterFailMsg (specificModel : Option String) (last : Option String) : String :=
  "OpenRouter failed for model "
    ++ (match specificModel with | some m => m | none => "auto")
    ++ ". Last error: " ++ showLastOrUndefined last

/-- `callOpenRouter` (lines 228-319) over a fixed trial list `modelsToTry`
(the cached-catalog selection and optional coding re-sort of lines 235-248
fix this list before the loop starts). -/
def callOpenRouter (respond : String → String → ORWire)
    (modelsToTry apiKeys : List String) (specificModel : Option String) :
    Except String String :=
  let r := modelsLoop (fun m k => classifyOpenRouter (respond m k)) apiKeys modelsToTry none
  match r.1 with
  | some t => Except.ok t
  | none => Except.error (openRouterFailMsg specificModel r.2.2)

/-- The `(model, key)` attempts actually issued by `callOpenRouter`. -/
def callOpenRouterTrace (respond : String → String → ORWire)
    (modelsToTry apiKeys : List String) : List (String × String) :=
  (modelsLoop (fun m k => classifyOpenRouter (respond m k)) apiKeys modelsToTry none).2.1

/-- Observable outcome of one Hugging Face `fetch` for a (model, key)
pair: a thrown error, a non-ok HTTP status, an ok response whose JSON body
carries an `error` field containing `loading`, or an ok response whose
extracted `generated_text` is `text` (possibly empty). -/
inductive HFWire where
  | netThrow (e : String)
  | httpError (status : Nat)
  | loading
  | body (text : String)

/-- Lines 354-375 of `callHuggingFace`: statuses 401/429 `continue` to the
next credential; any other non-ok status `break`s; a loading body throws
`Model loading` (caught: next credential); an empty `generated_text`
throws `Empty response` (caught: next credential); otherwise success. -/
def classifyHuggingFace : HFWire → StepAction
  | HFWire.netThrow e => StepAction.retryKey (some e)
  | HFWire.httpError st =>
    if st = 401 ∨ st = 429 then StepAction.retryKey none
    else StepAction.abandonModel
  | HFWire.loading => StepAction.retryKey (some "Model loading")
  | HFWire.body t =>
    if t = "" then StepAction.retryKey (some "Empty response") else StepAction.done t

/-- The aggregate failure message of line 383. -/
def huggingFaceFailMsg (last : Option String) : String :=
  "Hugging Face failed. Checked models with all keys. Last error: "
    ++ showLastOrUndefined last

/-- `callHuggingFace` (lines 321-384) over the cached model list. -/
def callHuggingFace (respond : String → String → HFWire)
    (models apiKeys : List String) : Except String String :=
  let r := modelsLoop (fun m k => classifyHuggingFace (respond m k)) apiKeys models none
  match r.1 with
  | some t => Except.ok t
  | none => Except.error (huggingFaceFailMsg r.2.2)

/-- The `(model, key)` attempts actually issued by `callHuggingFace`. -/
def callHuggingFaceTrace (respond : String → String → HFWire)
    (models apiKeys : List String) : List (String × String) :=
  (modelsLoop (fun m k => classifyHuggingFace (respond m k)) apiKeys models none).2.1

/-- One grounding chunk of a Gemini response; `uri` is `none` when
`c.web?.uri` is absent or falsy. -/
structure GroundingChunk where
  uri : Option String
  title : String

/-- A non-streaming Gemini response: the generated text (`none` models an
absent `response.text`) and the grounding chunks. -/
structure GeminiResponse where
  text : Option String
  groundingChunks : List GroundingChunk

/-- JS `new Set(xs)` iteration order: first occurrences, in order. -/
def jsSetDedup {α : Type} [DecidableEq α] : List α → List α → List α
  | [], _ => []
  | a :: l, seen => if a ∈ seen then jsSetDedup l seen else a :: jsSetDedup l (a :: seen)

/-- The Markdown source link of line 217. -/
def formatSource (c : GroundingChunk) : String :=
  "[" ++ c.title ++ "](" ++ (match c.uri with | some u => u | none => "") ++ ")"

/-- The non-streaming branch of `callGemini` (lines 209-225): append a
deduplicated `Sources` section when grounding chunks with URIs exist, and
return `(response.text || '') + groundingText` — always a success. -/
def callGemini (resp : GeminiResponse) : Except String String :=
  let sources := (resp.groundingChunks.filter (fun c => c.uri.isSome)).map formatSource
  let groundingText :=
    if sources.length > 0 then
      "\n\n**Sources:**\n" ++ String.intercalate ("\n") (jsSetDedup sources [])
    else ""
  Except.ok ((match resp.text with | some t => t | none => "") ++ groundingText)

/-- The streaming branch of `callGemini` (lines 198-208): the returned
text is the concatenation of the non-empty chunk texts — always a
success, even when the accumulated text is empty. -/
def callGeminiStream (chunks : List (Option String)) : Except String String :=
  Except.ok (String.join (chunks.filterMap id))

/-! ## Model Discovery Cache (lines 8-156) -/

/-- One entry of the OpenRouter `/models` listing: its `id` and the
optional `pricing.prompt` / `pricing.completion` strings (`none` when the
`pricing` object or the field is absent). -/
structure ORModelEntry where
  id : List Char
  promptPrice : Option (List Char)
  completionPrice : Option (List Char)
deriving DecidableEq

/-- `parseFloat(s) === 0`, with numbers read exactly: skip leading
whitespace, an optional sign, integer digits, an optional fraction; the
value is zero exactly when some digit was read and every mantissa digit is
`0` (an exponent cannot make an exact non-zero mantissa zero). -/
def parseFloatIsZero (s : List Char) : Bool :=
  let s1 := s.dropWhile isJsWhitespace
  let s2 :=
    match s1 with
    | '+' :: r => r
    | '-' :: r => r
    | _ => s1
  let ds := s2.takeWhile Char.isDigit
  let r1 := s2.drop ds.length
  let fs :=
    match r1 with
    | '.' :: r2 => r2.takeWhile Char.isDigit
    | _ => []
  (!(ds.isEmpty && fs.isEmpty)) && (ds ++ fs).all (fun c => c = '0')

/-- `model.pricing?.prompt || "1"`: an absent or empty price string
defaults to `"1"`. -/
def priceOrDefault : Option (List Char) → List Char
  | some p => if p.isEmpty then ['1'] else p
  | none => ['1']

/-- The filter of lines 89-93: both prices parse to exactly zero. -/
def isFreeModel (e : ORModelEntry) : Bool :=
  parseFloatIsZero (priceOrDefault e.promptPrice)
    && parseFloatIsZero (priceOrDefault e.completionPrice)

/-- The `getScore` heuristic of lines 96-106, over the lowercased id. -/
def getScore (id : List Char) : Nat :=
  let idl := id.map Char.toLower
  (if containsSeq ("deepseek-r1".data) idl then 15 else 0)
    + (if containsSeq ("llama-3".data) idl then 10 else 0)
    + (if containsSeq ("mistral".data) idl then 8 else 0)
    + (if containsSeq ("gemini".data) idl then 8 else 0)
    + (if containsSeq ("70b".data) idl then 5 else 0)
    + (if containsSeq ("free".data) idl then 1 else 0)

/-- Stable insertion for descending-by-score order: `x` is placed before
the first element whose score is not larger, so earlier entries stay ahead
of later entries with an equal score. -/
def insertByScoreDesc (x : ORModelEntry) : List ORModelEntry → List ORModelEntry
  | [] => [x]
  | y :: ys =>
    if getScore x.id < getScore y.id then y :: insertByScoreDesc x ys
    else x :: y :: ys

/-- The stable descending sort of line 95 (`Array.prototype.sort` with
comparator `getScore(b) - getScore(a)` is stable per the ECMAScript
specification; any stable sort yields the same list). -/
def sortByScoreDesc : List ORModelEntry → List ORModelEntry
  | [] => []
  | x :: xs => insertByScoreDesc x (sortByScoreDesc xs)

/-- The static OpenRouter safety list of lines 15-21. -/
def SAFETY_FALLBACK_OPENROUTER : List (List Char) :=
  [("deepseek/deepseek-r1:free".data),
   ("google/gemini-2.0-flash-lite-preview-02-05:free".data),
   ("meta-llama/llama-3.3-70b-instruct:free".data),
   ("mistralai/mistral-7b-instruct:free".data),
   ("microsoft/phi-3-medium-128k-instruct:free".data)]

/-- The static Hugging Face safety list of lines 23-26. -/
def SAFETY_FALLBACK_HF : List (List Char) :=
  [("HuggingFaceH4/zephyr-7b-beta".data),
   ("mistralai/Mistral-7B-Instruct-v0.3".data)]

/-- Observable outcome of the OpenRouter discovery fetch: a thrown error
(network failure or non-JSON body), or a JSON body whose `data` field is
absent (`none`) or a list of model entries. -/
inductive ORDiscoveryInput where
  | fetchFail (e : String)
  | body (data : Option (List ORModelEntry))

/-- `discoverFreeOpenRouterModels` (lines 81-118). -/
def discoverFreeOpenRouterModels : ORDiscoveryInput → List (List Char)
  | ORDiscoveryInput.fetchFail _ => SAFETY_FALLBACK_OPENROUTER
  | ORDiscoveryInput.body none => SAFETY_FALLBACK_OPENROUTER
  | ORDiscoveryInput.body (some data) =>
    let freeModels := data.filter isFreeModel
    let sortedModels := sortByScoreDesc freeModels
    let modelIds := sortedModels.map ORModelEntry.id
    if modelIds.length > 0 then modelIds else SAFETY_FALLBACK_OPENROUTER

/-- Observable outcome of the Hugging Face discovery fetch: a thrown
error, or a body that is not an array (`none`), or the array of
`modelId` strings. -/
inductive HFDiscoveryInput where
  | fetchFail (e : String)
  | body (data : Option (List (List Char)))

/-- `discoverTrendingHFModels` (lines 120-143): drop ids containing
`gemma-7b`, then merge the safety list first with the fetched ids,
deduplicating with first-occurrence order (`[...new Set(...)]`). -/
def discoverTrendingHFModels : HFDiscoveryInput → List (List Char)
  | HFDiscoveryInput.fetchFail _ => SAFETY_FALLBACK_HF
  | HFDiscoveryInput.body none => SAFETY_FALLBACK_HF
  | HFDiscoveryInput.body (some data) =>
    let filtered :=
      data.filter (fun id => !(containsSeq ("gemma-7b".data) (id.map Char.toLower)))
    jsSetDedup (SAFETY_FALLBACK_HF ++ filtered) []

/-- The module-level mutable discovery cache (lines 9-11). -/
structure ModelCacheState where
  cachedOpenRouterModels : List (List Char)
  cachedHuggingFaceModels : List (List Char)
  lastDiscoveryTime : Nat

/-- One hour in milliseconds (line 12). -/
def CACHE_DURATION : Nat := 1000 * 60 * 60

/-- `refreshModelCache` (lines 145-156) as a state transformer: refresh
only when the cache is stale or the OpenRouter catalog is empty. -/
def refreshModelCache (st : ModelCacheState) (now : Nat)
    (orInput : ORDiscoveryInput) (hfInput : HFDiscoveryInput) : ModelCacheState :=
  if CACHE_DURATION < now - st.lastDiscoveryTime ∨ st.cachedOpenRouterModels = [] then
    { cachedOpenRouterModels := discoverFreeOpenRouterModels orInput,
      cachedHuggingFaceModels := discoverTrendingHFModels hfInput,
      lastDiscoveryTime := now }
  else st

/-! ## Swarm Engine (`executeOpenRouterSwarm`, lines 386-445)

The parallel per-model calls are abstracted as their settled `outcomes`
(one `Except` per selected model, in selection order). The function is
modelled up to the synthesis hand-off: on success it returns the list of
records fed into the synthesis prompt together with the prompt itself. -/

/-- The settled record of one parallel call (lines 408-412): a fulfilled
call keeps its text, a rejected call is converted into a
`Failed: <message>` record with `success := false`. -/
structure SwarmRecord where
  model : String
  text : String
  success : Bool
deriving DecidableEq

/-- Lines 410-411. -/
def swarmRecord (m : String) (r : Except String String) : SwarmRecord :=
  match r with
  | Except.ok t => { model := m, text := t, success := true }
  | Except.error e => { model := m, text := "Failed: " ++ e, success := false }

/-- Line 415: `results.filter(r => r.success && r.text)` — note the
truthiness test drops successful calls whose text is empty. -/
def successfulResponses (outcomes : List (String × Except String String)) :
    List SwarmRecord :=
  (outcomes.map (fun p => swarmRecord p.1 p.2)).filter
    (fun r => r.success && !(r.text = ""))

/-- One `--- MODEL i+1: id ---` section of the synthesis prompt
(line 428). -/
def swarmModelSection (i : Nat) (r : SwarmRecord) : String :=
  "--- MODEL " ++ toString (i + 1) ++ ": " ++ r.model ++ " ---\n" ++ r.text

/-- The synthesis prompt template of lines 423-436. -/
def synthesisPromptFor (prompt : String) (succ : List SwarmRecord) : String :=
  "\n    You are a Super-Intelligence Consensus Engine.\n    I have queried "
    ++ toString succ.length
    ++ " different AI models about the following prompt: \"" ++ prompt
    ++ "\".\n    \n    Here are their responses:\n    "
    ++ String.intercalate ("\n\n") (succ.mapIdx swarmModelSection)
    ++ "\n    \n    TASK:\n    1. Analyze all responses.\n    2. Identify the most correct, detailed, and logical information.\n    3. Resolve any conflicts between models using your own superior reasoning.\n    4. Generate ONE perfect, comprehensive response that combines the strengths of all models.\n    5. Do not explicitly mention \"Model 1 said this\", just give the final answer.\n    "

/-- Line 418. -/
def swarmFailMsg : String := "Swarm failed: All models returned errors."

/-- `executeOpenRouterSwarm` from the settled parallel outcomes onwards
(lines 414-444): fail when no filtered success remains, otherwise hand the
successful records and the synthesis prompt to the synthesis call. -/
def executeOpenRouterSwarm (outcomes : List (String × Except String String))
    (prompt : String) : Except String (List SwarmRecord × String) :=
  let succ := successfulResponses outcomes
  if succ.isEmpty then Except.error swarmFailMsg
  else Except.ok (succ, synthesisPromptFor prompt succ)

/-- The synthesis call settings of line 441: complex-task mode disabled
and the provider forced to `gemini`. -/
def swarmSynthesisSettings (s : AISettings) : AISettings :=
  { s with isComplexTaskMode := false, provider := AIProvider.gemini }

/-! ## Hybrid Engine (`getMultiModelResponse`, lines 705-759) and its
mutual recursion with `executeWithFallback`

`hybridInterp` is a fuel-indexed interpreter of the mutual recursion:
mode `true` runs `executeWithFallback`, mode `false` runs
`getMultiModelResponse`; `none` means the computation has not settled
within `fuel` nested calls. All remote behaviour is fixed by a
`HybridOracle`: `attempt` settles a non-hybrid provider branch of the
fallback loop, `swarm` settles a swarm pre-step, and `branches` settles
the hybrid engine's parallel calls (`none` entries are branches whose
promise was caught to `null`, line 725/733/742). -/

structure HybridOracle where
  attempt : AIProvider → Except String String
  swarm : Except String String
  branches : AISettings → List (Option String)

/-- The labels of the parallel branches issued by the hybrid fan-out
(lines 720-744): Gemini always, OpenRouter and Hugging Face when their
key lists are non-empty. -/
def hybridFanoutSources (s : AISettings) : List String :=
  ["Gemini"]
    ++ (if getOpenRouterKeys s ≠ [] then ["OpenRouter (Dynamic)"] else [])
    ++ (if getHuggingFaceKeys s ≠ [] then ["HuggingFace (Dynamic)"] else [])

/-- The degrade guard of line 714: neither credential set configured. -/
def hybridDegrades (s : AISettings) : Bool :=
  s.openRouterApiKeys.isEmpty && s.huggingFaceApiKeys.isEmpty

/-- Line 749. -/
def hybridSynthFailMsg : String := "Hybrid synthesis failed: All models failed."

/-- Fuel-indexed interpreter of the `executeWithFallback` ↔
`getMultiModelResponse` mutual recursion. Mode `true` is
`executeWithFallback`: the swarm pre-step (when eligible) may return
early, then the provider trial list runs — its head is the chosen
provider (recursing into the hybrid engine when that is `hybrid`), and
the tail `fallbackProvidersTail s` never contains `hybrid`, so it is
settled by the pure `runProviders` loop. Mode `false` is
`getMultiModelResponse`: without credentials it degrades to a
`getChatResponse` call with the provider forced to `gemini` (whose
memory-retrieval preamble, a further gemini-only orchestrator call, is
abstracted away); otherwise, if every parallel branch failed it throws,
and else it issues the synthesis call through `executeWithFallback` with
the caller's settings unchanged (line 753-758, `history: []`, no JSON
mode, no files). -/
def hybridInterp (orc : HybridOracle) :
    Bool → AISettings → FallbackRequest → Nat → Option (Except String String)
  | _, _, _, 0 => none
  | true, s, req, Nat.succ fuel =>
    let headResult : Option (Except String String) :=
      if s.provider = AIProvider.hybrid then hybridInterp orc false s req fuel
      else some (orc.attempt s.provider)
    let loopResult : Option (Except String String) :=
      match headResult with
      | none => none
      | some (Except.ok r) => some (Except.ok r)
      | some (Except.error e) =>
        some (runProviders orc.attempt (fallbackProvidersTail s) (some e))
    if swarmEligible s req then
      match orc.swarm with
      | Except.ok r => some (Except.ok r)
      | Except.error _ => loopResult
    else loopResult
  | false, s, _req, Nat.succ fuel =>
    if hybridDegrades s then
      hybridInterp orc true { s with provider := AIProvider.gemini }
        { jsonMode := false, hasFiles := false } fuel
    else
      match (orc.branches s).filterMap id with
      | [] => some (Except.error hybridSynthFailMsg)
      | _ :: _ =>
        hybridInterp orc true s { jsonMode := false, hasFiles := false } fuel

/-! ## JSON Extractor (`sanitizeAndParseJson`, lines 40-77)

JSON values are modelled with exact integer numbers (the float corner
cases of IEEE doubles are outside this embedding) and objects as ordered
key/value lists. `serializeJson` models `JSON.stringify` of such a value;
`parseValue` is a fuel-indexed recursive-descent model of `JSON.parse`
(over-accepting only leading zeros on numbers and under-accepting
`\u` escapes and float literals, none of which `JSON.stringify` of a
modelled value produces). -/

inductive Json where
  | null
  | bool (b : Bool)
  | num (n : Int)
  | str (s : List Char)
  | arr (xs : List Json)
  | obj (kvs : List (List Char × Json))

/-- Decimal digit to character. -/
def digitChar : Nat → Char
  | 0 => '0'
  | 1 => '1'
  | 2 => '2'
  | 3 => '3'
  | 4 => '4'
  | 5 => '5'
  | 6 => '6'
  | 7 => '7'
  | 8 => '8'
  | _ => '9'

/-- Fuelled big-endian decimal digits of a natural number. -/
def natDigitsAux : Nat → Nat → List Char
  | 0, _ => []
  | Nat.succ _, 0 => ['0']
  | Nat.succ f, Nat.succ m =>
    if Nat.succ m < 10 then [digitChar (Nat.succ m)]
    else natDigitsAux f (Nat.succ m / 10) ++ [digitChar (Nat.succ m % 10)]

/-- Decimal digits of a natural number. -/
def natToDigits (n : Nat) : List Char := natDigitsAux (n + 1) n

/-- Decimal rendering of an integer. -/
def intToDigits (n : Int) : List Char :=
  if n < 0 then '-' :: natToDigits n.natAbs else natToDigits n.natAbs

/-- `JSON.stringify` string escaping for one character (the control
characters beyond newline/tab/carriage-return are excluded by `strOk`). -/
def escChar (c : Char) : List Char :=
  if c = '"' then ['\\', '"']
  else if c = '\\' then ['\\', '\\']
  else if c = '\n' then ['\\', 'n']
  else if c = '\t' then ['\\', 't']
  else if c = '\r' then ['\\', 'r']
  else [c]

/-- `JSON.stringify` string escaping. -/
def escapeString : List Char → List Char
  | [] => []
  | c :: cs => escChar c ++ escapeString cs

/-- String payloads covered by the embedding: no control characters other
than newline, tab and carriage return. -/
def strOk (s : List Char) : Bool :=
  s.all (fun c => 32 ≤ c.toNat || c = '\n' || c = '\t' || c = '\r')

mutual
/-- `JSON.stringify` of a modelled value. -/
def serializeJson : Json → List Char
  | Json.null => ['n', 'u', 'l', 'l']
  | Json.bool true => ['t', 'r', 'u', 'e']
  | Json.bool false => ['f', 'a', 'l', 's', 'e']
  | Json.num n => intToDigits n
  | Json.str s => '"' :: escapeString s ++ ['"']
  | Json.arr xs => '[' :: serializeElems xs ++ [']']
  | Json.obj kvs => '\x7b' :: serializeMembers kvs ++ ['\x7d']
def serializeElems : List Json → List Char
  | [] => []
  | [x] => serializeJson x
  | x :: y :: xs => serializeJson x ++ ',' :: serializeElems (y :: xs)
def serializeMembers : List (List Char × Json) → List Char
  | [] => []
  | [kv] => '"' :: escapeString kv.1 ++ '"' :: ':' :: serializeJson kv.2
  | kv :: kv2 :: kvs =>
    ('"' :: escapeString kv.1 ++ '"' :: ':' :: serializeJson kv.2)
      ++ ',' :: serializeMembers (kv2 :: kvs)
end

mutual
/-- The values covered by the embedding: every string is `strOk`. -/
def jsonWf : Json → Bool
  | Json.null => true
  | Json.bool _ => true
  | Json.num _ => true
  | Json.str s => strOk s
  | Json.arr xs => jsonWfElems xs
  | Json.obj kvs => jsonWfMembers kvs
def jsonWfElems : List Json → Bool
  | [] => true
  | x :: xs => jsonWf x && jsonWfElems xs
def jsonWfMembers : List (List Char × Json) → Bool
  | [] => true
  | kv :: kvs => strOk kv.1 && jsonWf kv.2 && jsonWfMembers kvs
end

mutual
/-- Parser fuel sufficient for a value. -/
def jfuel : Json → Nat
  | Json.arr xs => 1 + jfuelElems xs
  | Json.obj kvs => 1 + jfuelMembers kvs
  | _ => 1
def jfuelElems : List Json → Nat
  | [] => 0
  | x :: xs => 1 + max (jfuel x) (jfuelElems xs)
def jfuelMembers : List (List Char × Json) → Nat
  | [] => 0
  | kv :: kvs => 1 + max (jfuel kv.2) (jfuelMembers kvs)
end

/-- JSON whitespace of `JSON.parse`. -/
def isJsonWs (c : Char) : Bool :=
  c = ' ' || c = '\t' || c = '\n' || c = '\r'

/-- Skip leading JSON whitespace. -/
def skipWs (l : List Char) : List Char := l.dropWhile isJsonWs

/-- Value of a digit character. -/
def digitVal (c : Char) : Nat := c.toNat - 48

/-- Value of a big-endian digit string. -/
def digitsVal (l : List Char) : Nat := l.foldl (fun a c => 10 * a + digitVal c) 0

/-- Unescape one backslash escape (`\u` escapes are not modelled). -/
def unescapeChar (c : Char) : Option Char :=
  if c = '"' then some '"'
  else if c = '\\' then some '\\'
  else if c = '/' then some '/'
  else if c = 'n' then some '\n'
  else if c = 't' then some '\t'
  else if c = 'r' then some '\r'
  else if c = 'b' then some (Char.ofNat 8)
  else if c = 'f' then some (Char.ofNat 12)
  else none

/-- Parse a string body after the opening quote, up to and including the
closing quote; raw control characters are rejected as in `JSON.parse`. -/
def parseStringBody : List Char → Option (List Char × List Char)
  | [] => none
  | c :: rest =>
    if c = '"' then some ([], rest)
    else if c = '\\' then
      match rest with
      | [] => none
      | e :: rest2 =>
        match unescapeChar e with
        | none => none
        | some u =>
          match parseStringBody rest2 with
          | none => none
          | some (s, r) => some (u :: s, r)
    else if c.toNat < 32 then none
    else
      match parseStringBody rest with
      | none => none
      | some (s, r) => some (c :: s, r)

/-- After an integer literal the next character may not extend a number
(the embedding rejects fraction/exponent forms it cannot represent). -/
def numStop (l : List Char) : Bool :=
  match l with
  | [] => true
  | c :: _ => !(c.isDigit || c = '.' || c = 'e' || c = 'E')

/-- Parse the digits of an integer literal (after the optional sign). -/
def parseNumAbs (neg : Bool) (l : List Char) : Option (Json × List Char) :=
  let ds := l.takeWhile Char.isDigit
  let rest := l.drop ds.length
  if ds.isEmpty then none
  else if numStop rest then
    some (Json.num (if neg then -(Int.ofNat (digitsVal ds)) else Int.ofNat (digitsVal ds)),
      rest)
  else none

/-- Parse an integer literal starting at `l`. -/
def parseNumber : List Char → Option (Json × List Char)
  | [] => none
  | c :: rest =>
    if c = '-' then parseNumAbs true rest else parseNumAbs false (c :: rest)

mutual
/-- Fuel-indexed model of `JSON.parse` for one value; returns the value
and the unconsumed suffix. -/
def parseValue : Nat → List Char → Option (Json × List Char)
  | 0, _ => none
  | Nat.succ fuel, l =>
    match skipWs l with
    | [] => none
    | c :: rest =>
      if c = '-' || c.isDigit then parseNumber (c :: rest)
      else if c = 'n' then
        match rest with
        | 'u' :: 'l' :: 'l' :: r => some (Json.null, r)
        | _ => none
      else if c = 't' then
        match rest with
        | 'r' :: 'u' :: 'e' :: r => some (Json.bool true, r)
        | _ => none
      else if c = 'f' then
        match rest with
        | 'a' :: 'l' :: 's' :: 'e' :: r => some (Json.bool false, r)
        | _ => none
      else if c = '"' then
        match parseStringBody rest with
        | none => none
        | some (s, r) => some (Json.str s, r)
      else if c = '[' then
        match skipWs rest with
        | [] => none
        | c2 :: r2 =>
          if c2 = ']' then some (Json.arr [], r2)
          else parseElems fuel (c2 :: r2) []
      else if c = '\x7b' then
        match skipWs rest with
        | [] => none
        | c2 :: r2 =>
          if c2 = '\x7d' then some (Json.obj [], r2)
          else parseMembers fuel (c2 :: r2) []
      else none
/-- Parse the non-empty element list of an array, after the opening
bracket and leading whitespace. -/
def parseElems : Nat → List Char → List Json → Option (Json × List Char)
  | 0, _, _ => none
  | Nat.succ fuel, l, acc =>
    match parseValue fuel l with
    | none => none
    | some (v, r) =>
      match skipWs r with
      | ',' :: r2 => parseElems fuel r2 (acc ++ [v])
      | ']' :: r2 => some (Json.arr (acc ++ [v]), r2)
      | _ => none
/-- Parse the non-empty member list of an object, after the opening brace
and leading whitespace. -/
def parseMembers : Nat → List Char → List (List Char × Json) → Option (Json × List Char)
  | 0, _, _ => none
  | Nat.succ fuel, l, acc =>
    match skipWs l with
    | '"' :: r =>
      match parseStringBody r with
      | none => none
      | some (k, r2) =>
        match skipWs r2 with
        | ':' :: r3 =>
          match parseValue fuel r3 with
          | none => none
          | some (v, r4) =>
            match skipWs r4 with
            | [] => none
            | c5 :: r5 =>
              if c5 = ',' then parseMembers fuel r5 (acc ++ [(k, v)])
              else if c5 = '\x7d' then some (Json.obj (acc ++ [(k, v)]), r5)
              else none
        | _ => none
    | _ => none
end

/-- `JSON.parse`: one value, with only whitespace allowed after it; the
fuel `l.length + 1` dominates `jfuel` of any value serialised into `l`. -/
def parseJson (l : List Char) : Option Json :=
  match parseValue (l.length + 1) l with
  | some (v, r) => if (skipWs r).isEmpty then some v else none
  | none => none

/-! ### The fenced-code-block regex of line 46

The regex is modelled operationally: the leftmost start position at which
the whole pattern matches wins; at a given start the literal fence is
consumed, then optionally the tag `json`, then maximal whitespace, and the
lazy capture extends to the character before the next fence, minus the
whitespace run immediately preceding it. -/

def tripleBacktick : List Char := ['`', '`', '`']

/-- The prefix of `l` strictly before the first occurrence of a fence, or
`none` when no fence occurs. -/
def splitAtFence : List Char → Option (List Char)
  | [] => none
  | c :: rest =>
    if startsWithL tripleBacktick (c :: rest) then some []
    else
      match splitAtFence rest with
      | none => none
      | some p => some (c :: p)

/-- Remove a trailing whitespace run. -/
def dropTrailingWs (l : List Char) : List Char :=
  (l.reverse.dropWhile isJsWhitespace).reverse

/-- Attempt the fenced-block pattern at exactly this position. -/
def fenceAttempt (l : List Char) : Option (List Char) :=
  if startsWithL tripleBacktick l then
    let r1 := l.drop 3
    let r2 := if startsWithL ("json".data) r1 then r1.drop 4 else r1
    let s1 := r2.dropWhile isJsWhitespace
    match splitAtFence s1 with
    | none => none
    | some p => some (dropTrailingWs p)
  else none

/-- The captured interior of the leftmost fenced block, if any. -/
def fenceInterior : List Char → Option (List Char)
  | [] => none
  | c :: rest =>
    match fenceAttempt (c :: rest) with
    | some cap => some cap
    | none => fenceInterior rest

/-! ### The extraction heuristics of lines 53-74 -/

/-- Index of the first occurrence of `c` at or after offset `i`. -/
def firstIdxAux (c : Char) : List Char → Nat → Option Nat
  | [], _ => none
  | x :: xs, i => if x = c then some i else firstIdxAux c xs (i + 1)

/-- JS `indexOf` for a character. -/
def firstIdxOf (c : Char) (l : List Char) : Option Nat :=
  firstIdxAux c l 0

/-- JS `lastIndexOf` for a character. -/
def lastIdxOf (c : Char) (l : List Char) : Option Nat :=
  match firstIdxAux c l.reverse 0 with
  | none => none
  | some i => some (l.length - 1 - i)

/-- JS `text.substring(start, stop)` for `start ≤ stop`. -/
def jsSubstring (l : List Char) (start stop : Nat) : List Char :=
  (l.take stop).drop start

/-- Line 76. -/
def sanitizeFailMsg : String :=
  "Could not parse valid JSON from the AI response. Response might be malformed or plain text."

/-- The array-bracket fallback of lines 66-74. -/
def arrayHeuristic (text : List Char) : Except String Json :=
  match firstIdxOf '[' text, lastIdxOf ']' text with
  | some s, some e =>
    if s < e then
      match parseJson (jsSubstring text s (e + 1)) with
      | some v => Except.ok v
      | none => Except.error sanitizeFailMsg
    else Except.error sanitizeFailMsg
  | _, _ => Except.error sanitizeFailMsg

/-- The brace heuristic of lines 53-64, falling through to the array
fallback on any failure. -/
def braceHeuristic (text : List Char) : Except String Json :=
  match firstIdxOf '\x7b' text, lastIdxOf '\x7d' text with
  | some s, some e =>
    if s < e then
      match parseJson (jsSubstring text s (e + 1)) with
      | some v => Except.ok v
      | none => arrayHeuristic text
    else arrayHeuristic text
  | _, _ => arrayHeuristic text

/-- `sanitizeAndParseJson` (lines 40-77): whole-text parse, then the
fenced-block interior, then the brace heuristic, then the array fallback,
each failure falling through to the next attempt. -/
def sanitizeAndParseJson (text : List Char) : Except String Json :=
  match parseJson text with
  | some v => Except.ok v
  | none =>
    match fenceInterior text with
    | some interior =>
      match parseJson interior with
      | some v => Except.ok v
      | none => braceHeuristic text
    | none => braceHeuristic text

/-- The fenced-code-block wrapping used in the round-trip claim:
three backticks, optionally the tag `json`, a newline, the payload, a
newline, three backticks. -/
def fenceWrap (tag : Bool) (l : List Char) : List Char :=
  tripleBacktick ++ (if tag then ("json".data) else []) ++ '\n' :: l
    ++ '\n' :: tripleBacktick

/-! ### Concrete inputs used by the witness theorems -/

/-- Concrete trial for the C1 witness: the chosen provider fails, the
primary provider answers. -/
def c1Attempt : AIProvider → Except String String
  | AIProvider.gemini => Except.ok "hi"
  | AIProvider.huggingface => Except.error "hf down"
  | _ => Except.error "nope"

def c1Settings : AISettings :=
  { provider := AIProvider.huggingface, openRouterApiKeys := ["k1"],
    huggingFaceApiKeys := ["h1"], isComplexTaskMode := false }

/-- Synthetic Hugging Face backend for the counterexample: the first
model answers 402 to the first key; everything else succeeds. -/
def c2HFRespond (m k : String) : HFWire :=
  if m = "m1" ∧ k = "k1" then HFWire.httpError 402 else HFWire.body "ok"

/-- Concrete backends for the C2 witness: for model `mA`, a
credential-exhausted status on the first key and a success on the second;
both adapters serve `mA` with the second credential. -/
def c2ORRespondW (m k : String) : ORWire :=
  if m = "mA" ∧ k = "k1" then ORWire.httpError 402
  else if m = "mA" ∧ k = "k2" then ORWire.success "yes"
  else ORWire.httpError 500

def c2HFRespondW (m k : String) : HFWire :=
  if m = "mA" ∧ k = "k1" then HFWire.httpError 429
  else if m = "mA" ∧ k = "k2" then HFWire.body "txt"
  else HFWire.httpError 500

/-- Concrete backend for the C3 witness: two models answer `loading` for
both keys, the third answers with text. -/
def c3HFRespondW (m _k : String) : HFWire :=
  if m = "L1" ∨ m = "L2" then HFWire.loading else HFWire.body "ans"

def c9ORRespondW (_m _k : String) : ORWire := ORWire.success ""

def c9HFRespondW (_m _k : String) : HFWire := HFWire.body ""

/-- Concrete discovery body for the C5 witness: two zero-priced entries
(scoring 16 and 10) and one paid entry. -/
def c5Data : List ORModelEntry :=
  [{ id := ("x-llama-3".data), promptPrice := some ("0".data),
     completionPrice := some ("0.0".data) },
   { id := ("deepseek-r1-free".data), promptPrice := some ("0".data),
     completionPrice := some ("0".data) },
   { id := ("paid-model".data), promptPrice := some ("0.5".data),
     completionPrice := some ("0".data) }]

/-- The spec's own swarm scenario: three fulfilled calls, two rejected. -/
def c7Outcomes : List (String × Except String String) :=
  [("mA", Except.ok "A"), ("mB", Except.error "x"), ("mC", Except.ok "C"),
   ("mD", Except.error "y"), ("mE", Except.ok "E")]

def c8Oracle : HybridOracle :=
  { attempt := fun _ => Except.ok "g", swarm := Except.error "sw",
    branches := fun _ => [] }

def c8Settings : AISettings :=
  { provider := AIProvider.hybrid, openRouterApiKeys := [],
    huggingFaceApiKeys := [], isComplexTaskMode := false }

def c10Oracle : HybridOracle :=
  { attempt := fun _ => Except.ok "g", swarm := Except.error "sw",
    branches := fun _ => [some "b"] }

def c10Settings : AISettings :=
  { provider := AIProvider.hybrid, openRouterApiKeys := ["k"],
    huggingFaceApiKeys := [], isComplexTaskMode := false }

/-- A value whose serialized form contains a fence. -/
def c4CexValue : Json := Json.str ("``` ".data)

/-- Concrete object value for the C4 witness. -/
def c4WitnessValue : Json := Json.obj [(("a".data), Json.num 1)]

/-! ## Proofs -/

/-! ### Fallback Orchestrator lemmas -/

theorem fallbackProviders_ne_nil (s : AISettings) : fallbackProviders s ≠ [] := by
  simp [fallbackProviders]

theorem runProviders_first_ok (attempt : AIProvider → Except String String)
    (r : String) (p : AIProvider) :
    ∀ (l1 : List AIProvider) (l2 : List AIProvider) (last : Option String),
      (∀ q ∈ l1, ∃ e, attempt q = Except.error e) → attempt p = Except.ok r →
      runProviders attempt (l1 ++ p :: l2) last = Except.ok r := by
  intro l1
  induction l1 with
  | nil =>
    intro l2 last _ hp
    simp [runProviders, hp]
  | cons q l1 ih =>
    intro l2 last hfail hp
    obtain ⟨e, he⟩ := hfail q (List.mem_cons_self q l1)
    simp only [List.cons_append, runProviders, he]
    exact ih l2 (some e) (fun q hq => hfail q (List.mem_cons_of_mem _ hq)) hp

theorem runProviders_all_fail (attempt : AIProvider → Except String String) :
    ∀ (l : List AIProvider) (hne : l ≠ []) (last : Option String) (e : String),
      (∀ q ∈ l, ∃ e2, attempt q = Except.error e2) →
      attempt (l.getLast hne) = Except.error e →
      runProviders attempt l last = Except.error (allProvidersFailedMsg (some e)) := by
  intro l
  induction l with
  | nil => intro hne; exact absurd rfl hne
  | cons p ps ih =>
    intro _ last e hfail hlast
    cases ps with
    | nil =>
      simp only [List.getLast_singleton] at hlast
      simp [runProviders, hlast]
    | cons q qs =>
      obtain ⟨e2, he2⟩ := hfail p (List.mem_cons_self p _)
      simp only [runProviders, he2]
      rw [List.getLast_cons_cons] at hlast
      exact ih (by simp) (some e2) e (fun x hx => hfail x (List.mem_cons_of_mem _ hx)) hlast

theorem executeWithFallback_eq_runProviders (attempt : AIProvider → Except String String)
    (swarmResult : Except String String) (s : AISettings) (req : FallbackRequest)
    (hnoswarm : swarmEligible s req = false ∨ ∃ e, swarmResult = Except.error e) :
    executeWithFallback attempt swarmResult s req
      = runProviders attempt (fallbackProviders s) none := by
  rcases hnoswarm with h | ⟨e, he⟩
  · simp [executeWithFallback, h]
  · subst he
    by_cases h : swarmEligible s req <;> simp [executeWithFallback, h]

theorem fallbackProviders_eq_specTrialList (s : AISettings) :
    fallbackProviders s = specTrialList s := by
  cases hp : s.provider <;>
    by_cases ho : getOpenRouterKeys s = [] <;>
      by_cases hh : getHuggingFaceKeys s = [] <;>
        simp [fallbackProviders, fallbackProvidersTail, specTrialList, hp, ho, hh]

/-- Claim C1: for every request reaching the provider trial loop (the
swarm pre-step, when eligible, did not succeed), `executeWithFallback`
builds its trial list exactly as the spec orders it (chosen provider,
then gemini if not chosen, then openrouter given credentials if not
chosen, then huggingface given credentials if not chosen), returns the
first trial-list provider's success short-circuiting the rest, treats a
throwing provider as a logged failure that moves to the next provider,
and raises one aggregate error naming the last error when every provider
fails. -/
theorem claim_C1_fallback_trial_order (attempt : AIProvider → Except String String)
    (swarmResult : Except String String) (s : AISettings) (req : FallbackRequest)
    (hnoswarm : swarmEligible s req = false ∨ ∃ e, swarmResult = Except.error e) :
    fallbackProviders s = specTrialList s
    ∧ (∀ (r : String) (p : AIProvider) (l1 l2 : List AIProvider),
        fallbackProviders s = l1 ++ p :: l2 →
        (∀ q ∈ l1, ∃ e, attempt q = Except.error e) →
        attempt p = Except.ok r →
        executeWithFallback attempt swarmResult s req = Except.ok r)
    ∧ (∀ e : String,
        (∀ q ∈ fallbackProviders s, ∃ e2, attempt q = Except.error e2) →
        attempt ((fallbackProviders s).getLast (fallbackProviders_ne_nil s)) = Except.error e →
        executeWithFallback attempt swarmResult s req
          = Except.error (allProvidersFailedMsg (some e))) := by
  refine ⟨fallbackProviders_eq_specTrialList s, ?_, ?_⟩
  · intro r p l1 l2 hsplit hfail hp
    rw [executeWithFallback_eq_runProviders attempt swarmResult s req hnoswarm, hsplit]
    exact runProviders_first_ok attempt r p l1 l2 none hfail hp
  · intro e hfail hlast
    rw [executeWithFallback_eq_runProviders attempt swarmResult s req hnoswarm]
    exact runProviders_all_fail attempt (fallbackProviders s) (fallbackProviders_ne_nil s)
      none e hfail hlast


/-- Witness for C1 at a concrete request: settings choosing huggingface
with both credential sets produce the trial list
`[huggingface, gemini, openrouter]`, and the failing chosen provider falls
back to the succeeding primary provider. -/
theorem claim_C1_fallback_trial_order_witness :
    executeWithFallback c1Attempt (Except.error "sw") c1Settings
      ⟨false, false⟩ = Except.ok "hi" := by
  have h := claim_C1_fallback_trial_order c1Attempt (Except.error "sw") c1Settings
    ⟨false, false⟩ (Or.inr ⟨"sw", rfl⟩)
  refine h.2.1 "hi" AIProvider.gemini [AIProvider.huggingface] [AIProvider.openrouter]
    (by decide) ?_ rfl
  intro q hq
  rw [List.mem_singleton] at hq
  subst hq
  exact ⟨"hf down", rfl⟩

/-! ### Adapter retry-loop lemmas -/

theorem keysLoop_pre (act : String → String → StepAction) (m : String) :
    ∀ (pre ks : List String) (last : Option String),
      (∀ p ∈ pre, act m p = StepAction.retryKey none) →
      keysLoop act m (pre ++ ks) last
        = ((keysLoop act m ks last).1,
           pre.map (fun p => (m, p)) ++ (keysLoop act m ks last).2.1,
           (keysLoop act m ks last).2.2) := by
  intro pre
  induction pre with
  | nil => intro ks last _; simp
  | cons p pre ih =>
    intro ks last hpre
    have hp := hpre p (List.mem_cons_self p pre)
    have ihh := ih ks last (fun q hq => hpre q (List.mem_cons_of_mem _ hq))
    simp only [List.cons_append, keysLoop, hp, updateLast, List.map_cons, List.append_eq, ihh]

theorem keysLoop_all_retry (act : String → String → StepAction) (m : String) :
    ∀ (ks : List String) (last : Option String),
      (∀ k ∈ ks, ∃ ne, act m k = StepAction.retryKey ne) →
      ∃ last2, keysLoop act m ks last
        = (KeysOutcome.exhausted, ks.map (fun k => (m, k)), last2) := by
  intro ks
  induction ks with
  | nil => intro last _; exact ⟨last, rfl⟩
  | cons k ks ih =>
    intro last hks
    obtain ⟨ne, hne⟩ := hks k (List.mem_cons_self k ks)
    obtain ⟨last2, h2⟩ := ih (updateLast ne last) (fun q hq => hks q (List.mem_cons_of_mem _ hq))
    refine ⟨last2, ?_⟩
    simp [keysLoop, hne, h2]

theorem keysLoop_trace_model (act : String → String → StepAction) (m : String) :
    ∀ (ks : List String) (last : Option String) (mk : String × String),
      mk ∈ (keysLoop act m ks last).2.1 → mk.1 = m := by
  intro ks
  induction ks with
  | nil => intro last mk h; simp [keysLoop] at h
  | cons k ks ih =>
    intro last mk h
    match hact : act m k with
    | StepAction.retryKey ne =>
      simp only [keysLoop, hact] at h
      rcases List.mem_cons.mp h with h | h
      · rw [h]
      · exact ih (updateLast ne last) mk h
    | StepAction.abandonModel =>
      simp only [keysLoop, hact, List.mem_singleton] at h
      rw [h]
    | StepAction.done t =>
      simp only [keysLoop, hact, List.mem_singleton] at h
      rw [h]

theorem modelsLoop_trace_models (act : String → String → StepAction) (keys : List String) :
    ∀ (ms : List String) (last : Option String) (mk : String × String),
      mk ∈ (modelsLoop act keys ms last).2.1 → mk.1 ∈ ms := by
  intro ms
  induction ms with
  | nil => intro last mk h; simp [modelsLoop] at h
  | cons m ms ih =>
    intro last mk h
    simp only [modelsLoop] at h
    match hk : keysLoop act m keys last with
    | (KeysOutcome.success t, tr, l) =>
      rw [hk] at h
      have := keysLoop_trace_model act m keys last mk (by rw [hk]; exact h)
      simp [this]
    | (KeysOutcome.broke, tr, l) =>
      rw [hk] at h
      simp only [List.mem_append] at h
      rcases h with h | h
      · have := keysLoop_trace_model act m keys last mk (by rw [hk]; exact h)
        simp [this]
      · exact List.mem_cons_of_mem m (ih l mk h)
    | (KeysOutcome.exhausted, tr, l) =>
      rw [hk] at h
      simp only [List.mem_append] at h
      rcases h with h | h
      · have := keysLoop_trace_model act m keys last mk (by rw [hk]; exact h)
        simp [this]
      · exact List.mem_cons_of_mem m (ih l mk h)

theorem modelsLoop_retry_prefix (act : String → String → StepAction) (keys : List String) :
    ∀ (lms tailModels : List String) (last : Option String),
      (∀ lm ∈ lms, ∀ k ∈ keys, ∃ ne, act lm k = StepAction.retryKey ne) →
      ∃ last2, modelsLoop act keys (lms ++ tailModels) last
        = ((modelsLoop act keys tailModels last2).1,
           (lms.map (fun lm => keys.map (fun k => (lm, k)))).flatten
             ++ (modelsLoop act keys tailModels last2).2.1,
           (modelsLoop act keys tailModels last2).2.2) := by
  intro lms
  induction lms with
  | nil => intro tailModels last _; exact ⟨last, by simp⟩
  | cons lm lms ih =>
    intro tailModels last hall
    obtain ⟨last1, h1⟩ := keysLoop_all_retry act lm keys last
      (fun k hk => hall lm (List.mem_cons_self lm lms) k hk)
    obtain ⟨last2, h2⟩ := ih tailModels last1
      (fun q hq k hk => hall q (List.mem_cons_of_mem _ hq) k hk)
    refine ⟨last2, ?_⟩
    simp only [List.cons_append, modelsLoop, h1, List.append_eq, h2, List.map_cons,
      List.flatten_cons, List.append_assoc]

/-! ### Claim C2 (corrected)

The original claim asserts that both adapters treat HTTP 402 as a
credential-exhausted status. `callOpenRouter` does (line 271), but
`callHuggingFace` tests only 401 and 429 (line 355), so a 402 falls into
the `break` branch and abandons the model. -/


/-- Counterexample to C2 as stated: with models `[m1, m2]` and credentials
`[k1, k2]`, a 402 for `(m1, k1)` makes `callHuggingFace` abandon `m1`
without trying `(m1, k2)` — the attempt trace is
`[(m1, k1), (m2, k1)]` and `(m1, k2)` is never issued, contradicting the
claimed move to the next credential for the same model. -/
theorem claim_C2_counterexample :
    c2HFRespond "m1" "k1" = HFWire.httpError 402
    ∧ callHuggingFaceTrace c2HFRespond ["m1", "m2"] ["k1", "k2"]
        = [("m1", "k1"), ("m2", "k1")]
    ∧ ("m1", "k2") ∉ callHuggingFaceTrace c2HFRespond ["m1", "m2"] ["k1", "k2"] := by
  refine ⟨rfl, rfl, ?_⟩
  intro h
  rw [show callHuggingFaceTrace c2HFRespond ["m1", "m2"] ["k1", "k2"]
      = [("m1", "k1"), ("m2", "k1")] from rfl] at h
  simp at h

/-- Claim C2 as amended: in `callOpenRouter` a 401, 402 or 429 response
moves to the next credential for the same model (a run of such statuses
followed by a success on a later credential of the same model serves that
model, with exactly those attempts issued), and any other non-success
status abandons the current model — the loop continues with the next
model and none of the current model's remaining credentials is tried; in
`callHuggingFace` the same holds but with credential-exhausted statuses
401 and 429 only — 402 behaves like any other non-success status. -/
theorem claim_C2_credential_vs_model_retry
    (respondOR : String → String → ORWire) (respondHF : String → String → HFWire)
    (m : String) (ms : List String) (pre post : List String) (k : String)
    (sp : Option String) :
    ((∀ p ∈ pre, ∃ st, respondOR m p = ORWire.httpError st ∧ (st = 401 ∨ st = 402 ∨ st = 429)) →
      ∀ t, respondOR m k = ORWire.success t →
        callOpenRouter respondOR (m :: ms) (pre ++ k :: post) sp = Except.ok t
        ∧ callOpenRouterTrace respondOR (m :: ms) (pre ++ k :: post)
            = pre.map (fun p => (m, p)) ++ [(m, k)])
    ∧ ((∀ p ∈ pre, ∃ st, respondOR m p = ORWire.httpError st ∧ (st = 401 ∨ st = 402 ∨ st = 429)) →
      ∀ st, respondOR m k = ORWire.httpError st → ¬(st = 401 ∨ st = 402 ∨ st = 429) →
        callOpenRouter respondOR (m :: ms) (pre ++ k :: post) sp
            = callOpenRouter respondOR ms (pre ++ k :: post) sp
        ∧ (m ∉ ms → ∀ k2, (m, k2) ∈ callOpenRouterTrace respondOR (m :: ms) (pre ++ k :: post) →
            k2 ∈ pre ∨ k2 = k))
    ∧ ((∀ p ∈ pre, ∃ st, respondHF m p = HFWire.httpError st ∧ (st = 401 ∨ st = 429)) →
      ∀ t, respondHF m k = HFWire.body t → t ≠ "" →
        callHuggingFace respondHF (m :: ms) (pre ++ k :: post) = Except.ok t
        ∧ callHuggingFaceTrace respondHF (m :: ms) (pre ++ k :: post)
            = pre.map (fun p => (m, p)) ++ [(m, k)])
    ∧ ((∀ p ∈ pre, ∃ st, respondHF m p = HFWire.httpError st ∧ (st = 401 ∨ st = 429)) →
      ∀ st, respondHF m k = HFWire.httpError st → ¬(st = 401 ∨ st = 429) →
        callHuggingFace respondHF (m :: ms) (pre ++ k :: post)
            = callHuggingFace respondHF ms (pre ++ k :: post)
        ∧ (m ∉ ms → ∀ k2, (m, k2) ∈ callHuggingFaceTrace respondHF (m :: ms) (pre ++ k :: post) →
            k2 ∈ pre ∨ k2 = k)) := by
  have horpre : (∀ p ∈ pre, ∃ st, respondOR m p = ORWire.httpError st ∧ (st = 401 ∨ st = 402 ∨ st = 429)) →
      ∀ p ∈ pre, (fun m2 k2 => classifyOpenRouter (respondOR m2 k2)) m p = StepAction.retryKey none := by
    intro hpre p hp
    obtain ⟨st, hst, hstv⟩ := hpre p hp
    simp [hst, classifyOpenRouter, hstv]
  have hhfpre : (∀ p ∈ pre, ∃ st, respondHF m p = HFWire.httpError st ∧ (st = 401 ∨ st = 429)) →
      ∀ p ∈ pre, (fun m2 k2 => classifyHuggingFace (respondHF m2 k2)) m p = StepAction.retryKey none := by
    intro hpre p hp
    obtain ⟨st, hst, hstv⟩ := hpre p hp
    simp [hst, classifyHuggingFace, hstv]
  refine ⟨?_, ?_, ?_, ?_⟩
  · intro hpre t hk
    have hkey := keysLoop_pre (fun m2 k2 => classifyOpenRouter (respondOR m2 k2)) m pre
      (k :: post) none (horpre hpre)
    have hdone : keysLoop (fun m2 k2 => classifyOpenRouter (respondOR m2 k2)) m (k :: post) none
        = (KeysOutcome.success t, [(m, k)], none) := by
      simp [keysLoop, hk, classifyOpenRouter]
    rw [hdone] at hkey
    constructor
    · simp [callOpenRouter, modelsLoop, hkey]
    · simp [callOpenRouterTrace, modelsLoop, hkey]
  · intro hpre st hk hst
    have hkey := keysLoop_pre (fun m2 k2 => classifyOpenRouter (respondOR m2 k2)) m pre
      (k :: post) none (horpre hpre)
    have hbroke : keysLoop (fun m2 k2 => classifyOpenRouter (respondOR m2 k2)) m (k :: post) none
        = (KeysOutcome.broke, [(m, k)], none) := by
      simp [keysLoop, hk, classifyOpenRouter, hst]
    rw [hbroke] at hkey
    constructor
    · simp [callOpenRouter, modelsLoop, hkey]
    · intro hmnotin k2 hmem
      simp only [callOpenRouterTrace, modelsLoop, hkey] at hmem
      rcases List.mem_append.mp hmem with h | h
      · rcases List.mem_append.mp h with h | h
        · obtain ⟨p, hp, hpe⟩ := List.mem_map.mp h
          left
          rw [show k2 = p from ((Prod.mk.injEq _ _ _ _).mp hpe.symm).2]
          exact hp
        · right; exact ((Prod.mk.injEq _ _ _ _).mp (List.mem_singleton.mp h)).2
      · exact absurd (modelsLoop_trace_models _ _ ms none (m, k2) h) hmnotin
  · intro hpre t hk ht
    have hkey := keysLoop_pre (fun m2 k2 => classifyHuggingFace (respondHF m2 k2)) m pre
      (k :: post) none (hhfpre hpre)
    have hdone : keysLoop (fun m2 k2 => classifyHuggingFace (respondHF m2 k2)) m (k :: post) none
        = (KeysOutcome.success t, [(m, k)], none) := by
      simp [keysLoop, hk, classifyHuggingFace, ht]
    rw [hdone] at hkey
    constructor
    · simp [callHuggingFace, modelsLoop, hkey]
    · simp [callHuggingFaceTrace, modelsLoop, hkey]
  · intro hpre st hk hst
    have hkey := keysLoop_pre (fun m2 k2 => classifyHuggingFace (respondHF m2 k2)) m pre
      (k :: post) none (hhfpre hpre)
    have hbroke : keysLoop (fun m2 k2 => classifyHuggingFace (respondHF m2 k2)) m (k :: post) none
        = (KeysOutcome.broke, [(m, k)], none) := by
      simp [keysLoop, hk, classifyHuggingFace, hst]
    rw [hbroke] at hkey
    constructor
    · simp [callHuggingFace, modelsLoop, hkey]
    · intro hmnotin k2 hmem
      simp only [callHuggingFaceTrace, modelsLoop, hkey] at hmem
      rcases List.mem_append.mp hmem with h | h
      · rcases List.mem_append.mp h with h | h
        · obtain ⟨p, hp, hpe⟩ := List.mem_map.mp h
          left
          rw [show k2 = p from ((Prod.mk.injEq _ _ _ _).mp hpe.symm).2]
          exact hp
        · right; exact ((Prod.mk.injEq _ _ _ _).mp (List.mem_singleton.mp h)).2
      · exact absurd (modelsLoop_trace_models _ _ ms none (m, k2) h) hmnotin


/-- Witness for the amended C2: a 402 on `(mA, k1)` lets `callOpenRouter`
serve `mA` with `k2`, and a 429 on `(mA, k1)` lets `callHuggingFace`
serve `mA` with `k2`. -/
theorem claim_C2_credential_vs_model_retry_witness :
    callOpenRouter c2ORRespondW ["mA", "mB"] ["k1", "k2"] none = Except.ok "yes"
    ∧ callHuggingFace c2HFRespondW ["mA", "mB"] ["k1", "k2"] = Except.ok "txt" := by
  have h := claim_C2_credential_vs_model_retry c2ORRespondW c2HFRespondW "mA" ["mB"]
    ["k1"] [] "k2" none
  constructor
  · refine (h.1 ?_ "yes" rfl).1
    intro p hp
    rw [List.mem_singleton] at hp
    subst hp
    exact ⟨402, rfl, by decide⟩
  · refine (h.2.2.1 ?_ "txt" rfl (by decide)).1
    intro p hp
    rw [List.mem_singleton] at hp
    subst hp
    exact ⟨429, rfl, by decide⟩

/-! ### Claim C3: a loading signal never aborts `callHuggingFace` -/

/-- Claim C3: a `loading` response is classified as a recoverable retry
(never the `break` that abandons the run), and for every model list whose
first block reports `loading` for every credential while the next model
succeeds with non-empty text, `callHuggingFace` returns exactly that
model's output and every loading model was tried (with every
credential). -/
theorem claim_C3_hf_loading_recoverable (respond : String → String → HFWire)
    (lms : List String) (m : String) (rest : List String) (k : String)
    (ks : List String) (t : String)
    (hload : ∀ lm ∈ lms, ∀ kk ∈ k :: ks, respond lm kk = HFWire.loading)
    (hsucc : respond m k = HFWire.body t) (ht : t ≠ "") :
    classifyHuggingFace HFWire.loading = StepAction.retryKey (some "Model loading")
    ∧ callHuggingFace respond (lms ++ m :: rest) (k :: ks) = Except.ok t
    ∧ callHuggingFaceTrace respond (lms ++ m :: rest) (k :: ks)
        = (lms.map (fun lm => (k :: ks).map (fun kk => (lm, kk)))).flatten ++ [(m, k)] := by
  obtain ⟨last2, hrun⟩ := modelsLoop_retry_prefix
    (fun m2 k2 => classifyHuggingFace (respond m2 k2)) (k :: ks) lms (m :: rest) none
    (fun lm hlm kk hkk =>
      ⟨some "Model loading", by
        show classifyHuggingFace (respond lm kk) = StepAction.retryKey (some "Model loading")
        rw [hload lm hlm kk hkk]
        rfl⟩)
  have htail : modelsLoop (fun m2 k2 => classifyHuggingFace (respond m2 k2)) (k :: ks)
      (m :: rest) last2 = (some t, [(m, k)], last2) := by
    simp [modelsLoop, keysLoop, hsucc, classifyHuggingFace, ht]
  refine ⟨rfl, ?_, ?_⟩
  · simp [callHuggingFace, hrun, htail]
  · simp [callHuggingFaceTrace, hrun, htail]


/-- Witness for C3 at two loading models, two credentials and a third
succeeding model. -/
theorem claim_C3_hf_loading_recoverable_witness :
    callHuggingFace c3HFRespondW ["L1", "L2", "M"] ["k1", "k2"] = Except.ok "ans"
    ∧ callHuggingFaceTrace c3HFRespondW ["L1", "L2", "M"] ["k1", "k2"]
        = [("L1", "k1"), ("L1", "k2"), ("L2", "k1"), ("L2", "k2"), ("M", "k1")] := by
  have h := claim_C3_hf_loading_recoverable c3HFRespondW ["L1", "L2"] "M" [] "k1" ["k2"]
    "ans" ?_ rfl (by decide)
  · exact ⟨h.2.1, h.2.2⟩
  · intro lm hlm kk _
    rcases List.mem_cons.mp hlm with h1 | h1
    · subst h1; rfl
    · rw [List.mem_singleton] at h1; subst h1; rfl

/-! ### Claim C9 (corrected)

The original claim asserts that every adapter surfaces empty generated
text as a failure. Only `callHuggingFace` does (line 373); `callGemini`
returns `(response.text || '') + groundingText` and `callOpenRouter`
returns the extracted content even when empty. -/

/-- Counterexample to C9 as stated: a Gemini response with empty text and
no grounding metadata is returned as a success carrying the empty string,
not surfaced as a failure. -/
theorem claim_C9_counterexample :
    callGemini { text := some "", groundingChunks := [] } = Except.ok "" := rfl

/-- Claim C9 as amended: only the inference-endpoint adapter
(`callHuggingFace`) surfaces empty generated text as a failure of that
call (the empty text is recorded as an `Empty response` error and the
exhausted run raises the aggregate failure); the primary-provider adapter
(`callGemini`, streaming and non-streaming) and the marketplace adapter
(`callOpenRouter`) return empty text as a success. -/
theorem claim_C9_empty_text_handling (resp : GeminiResponse)
    (chunks : List (Option String)) (respondOR : String → String → ORWire)
    (respondHF : String → String → HFWire) (m : String) (ms : List String)
    (k : String) (ks : List String) (sp : Option String) :
    (∃ out, callGemini resp = Except.ok out)
    ∧ (∃ out, callGeminiStream chunks = Except.ok out)
    ∧ (respondOR m k = ORWire.success "" →
        callOpenRouter respondOR (m :: ms) (k :: ks) sp = Except.ok "")
    ∧ (respondHF m k = HFWire.body "" →
        callHuggingFace respondHF [m] [k]
          = Except.error (huggingFaceFailMsg (some "Empty response"))) := by
  refine ⟨⟨_, rfl⟩, ⟨_, rfl⟩, ?_, ?_⟩
  · intro h
    simp [callOpenRouter, modelsLoop, keysLoop, h, classifyOpenRouter]
  · intro h
    simp [callHuggingFace, modelsLoop, keysLoop, h, classifyHuggingFace, updateLast]


/-- Witness for the amended C9 at concrete backends that produce empty
text everywhere. -/
theorem claim_C9_empty_text_handling_witness :
    callOpenRouter c9ORRespondW ["m"] ["k"] none = Except.ok ""
    ∧ callHuggingFace c9HFRespondW ["m"] ["k"]
        = Except.error (huggingFaceFailMsg (some "Empty response")) := by
  have h := claim_C9_empty_text_handling ⟨some "", []⟩ [] c9ORRespondW c9HFRespondW
    "m" [] "k" [] none
  exact ⟨h.2.2.1 rfl, h.2.2.2 rfl⟩

/-! ### Discovery sorting lemmas -/

theorem insertByScoreDesc_perm (x : ORModelEntry) :
    ∀ l : List ORModelEntry, List.Perm (insertByScoreDesc x l) (x :: l) := by
  intro l
  induction l with
  | nil => simp [insertByScoreDesc]
  | cons y ys ih =>
    by_cases h : getScore x.id < getScore y.id
    · simp only [insertByScoreDesc, if_pos h]
      exact (ih.cons y).trans (List.Perm.swap x y ys)
    · simp [insertByScoreDesc, if_neg h]

theorem sortByScoreDesc_perm :
    ∀ l : List ORModelEntry, List.Perm (sortByScoreDesc l) l := by
  intro l
  induction l with
  | nil => simp [sortByScoreDesc]
  | cons x xs ih =>
    exact (insertByScoreDesc_perm x (sortByScoreDesc xs)).trans (ih.cons x)

theorem insertByScoreDesc_pairwise (x : ORModelEntry) :
    ∀ l : List ORModelEntry,
      List.Pairwise (fun a b => getScore b.id ≤ getScore a.id) l →
      List.Pairwise (fun a b => getScore b.id ≤ getScore a.id) (insertByScoreDesc x l) := by
  intro l
  induction l with
  | nil => intro _; simp [insertByScoreDesc]
  | cons y ys ih =>
    intro hp
    rw [List.pairwise_cons] at hp
    by_cases h : getScore x.id < getScore y.id
    · simp only [insertByScoreDesc, if_pos h]
      rw [List.pairwise_cons]
      refine ⟨?_, ih hp.2⟩
      intro a ha
      rcases List.mem_cons.mp ((insertByScoreDesc_perm x ys).mem_iff.mp ha) with h2 | h2
      · rw [h2]; exact Nat.le_of_lt h
      · exact hp.1 a h2
    · simp only [insertByScoreDesc, if_neg h]
      rw [List.pairwise_cons]
      refine ⟨?_, List.pairwise_cons.mpr hp⟩
      intro a ha
      rcases List.mem_cons.mp ha with h2 | h2
      · rw [h2]; exact Nat.le_of_not_lt h
      · exact Nat.le_trans (hp.1 a h2) (Nat.le_of_not_lt h)

theorem sortByScoreDesc_pairwise :
    ∀ l : List ORModelEntry,
      List.Pairwise (fun a b => getScore b.id ≤ getScore a.id) (sortByScoreDesc l) := by
  intro l
  induction l with
  | nil => simp [sortByScoreDesc]
  | cons x xs ih => exact insertByScoreDesc_pairwise x (sortByScoreDesc xs) ih

theorem insertByScoreDesc_filter_score (x : ORModelEntry) (sc : Nat) :
    ∀ l : List ORModelEntry,
      (insertByScoreDesc x l).filter (fun e => getScore e.id == sc)
        = if getScore x.id = sc then x :: l.filter (fun e => getScore e.id == sc)
          else l.filter (fun e => getScore e.id == sc) := by
  intro l
  induction l with
  | nil =>
    by_cases h : getScore x.id = sc <;>
      simp [insertByScoreDesc, List.filter_cons, beq_iff_eq, h]
  | cons y ys ih =>
    by_cases h : getScore x.id < getScore y.id
    · simp only [insertByScoreDesc, if_pos h]
      by_cases hx : getScore x.id = sc
      · have hy : ¬(getScore y.id = sc) := by
          intro hy
          rw [← hx] at hy
          exact absurd hy (Nat.ne_of_gt h)
        simp [List.filter_cons, beq_iff_eq, hx, hy, ih]
      · simp [List.filter_cons, beq_iff_eq, hx, ih]
    · simp only [insertByScoreDesc, if_neg h]
      by_cases hx : getScore x.id = sc <;>
        simp [List.filter_cons, beq_iff_eq, hx]

theorem sortByScoreDesc_filter_score (sc : Nat) :
    ∀ l : List ORModelEntry,
      (sortByScoreDesc l).filter (fun e => getScore e.id == sc)
        = l.filter (fun e => getScore e.id == sc) := by
  intro l
  induction l with
  | nil => rfl
  | cons x xs ih =>
    by_cases hx : getScore x.id = sc <;>
      simp [sortByScoreDesc, insertByScoreDesc_filter_score, hx, List.filter_cons,
        beq_iff_eq, ih]

/-- Claim C5: for every discovery response body with at least one
zero-priced model, the produced catalog is non-empty, contains exactly
the ids of the zero-priced entries, is sorted descending by `getScore`,
and ties keep their original relative order (for each score, the
subsequence of ids carrying that score is exactly the original
subsequence of the zero-priced list). -/
theorem claim_C5_openrouter_discovery_sorted (data : List ORModelEntry)
    (hfree : ∃ e ∈ data, isFreeModel e = true) :
    discoverFreeOpenRouterModels (ORDiscoveryInput.body (some data)) ≠ []
    ∧ List.Perm (discoverFreeOpenRouterModels (ORDiscoveryInput.body (some data)))
        ((data.filter isFreeModel).map ORModelEntry.id)
    ∧ List.Pairwise (fun a b => getScore b ≤ getScore a)
        (discoverFreeOpenRouterModels (ORDiscoveryInput.body (some data)))
    ∧ ∀ sc : Nat,
        (discoverFreeOpenRouterModels (ORDiscoveryInput.body (some data))).filter
            (fun id => getScore id == sc)
          = ((data.filter isFreeModel).map ORModelEntry.id).filter
              (fun id => getScore id == sc) := by
  have hne : data.filter isFreeModel ≠ [] := by
    obtain ⟨e, he, hf⟩ := hfree
    intro hnil
    have hmem : e ∈ data.filter isFreeModel := List.mem_filter.mpr ⟨he, hf⟩
    rw [hnil] at hmem
    exact absurd hmem (List.not_mem_nil e)
  have hperm := sortByScoreDesc_perm (data.filter isFreeModel)
  have hpos : 0 < ((sortByScoreDesc (data.filter isFreeModel)).map ORModelEntry.id).length := by
    rw [List.length_map, hperm.length_eq]
    exact List.length_pos.mpr hne
  have hdef : discoverFreeOpenRouterModels (ORDiscoveryInput.body (some data))
      = (sortByScoreDesc (data.filter isFreeModel)).map ORModelEntry.id := by
    simp only [discoverFreeOpenRouterModels]
    rw [if_pos hpos]
  refine ⟨?_, ?_, ?_, ?_⟩
  · rw [hdef]
    exact List.ne_nil_of_length_pos hpos
  · rw [hdef]
    exact hperm.map ORModelEntry.id
  · rw [hdef]
    exact (sortByScoreDesc_pairwise (data.filter isFreeModel)).map ORModelEntry.id
      (fun a b h => h)
  · intro sc
    rw [hdef]
    rw [List.filter_map, List.filter_map]
    rw [show (fun id => getScore id == sc) ∘ ORModelEntry.id
        = (fun e => getScore e.id == sc) from rfl]
    rw [sortByScoreDesc_filter_score]


/-- Witness for C5: the concrete body yields a non-empty catalog sorted
descending by score. -/
theorem claim_C5_openrouter_discovery_sorted_witness :
    discoverFreeOpenRouterModels (ORDiscoveryInput.body (some c5Data)) ≠ []
    ∧ List.Pairwise (fun a b => getScore b ≤ getScore a)
        (discoverFreeOpenRouterModels (ORDiscoveryInput.body (some c5Data))) := by
  have h := claim_C5_openrouter_discovery_sorted c5Data
    ⟨{ id := ("x-llama-3".data), promptPrice := some ("0".data),
       completionPrice := some ("0.0".data) }, by decide, by decide⟩
  exact ⟨h.1, h.2.2.1⟩

/-- Claim C6: discovery never yields an empty catalog; every discovery
failure (thrown fetch, malformed body, empty filtered result) yields
exactly the static safety list of its provider; and a refresh that
actually refreshed leaves both cached catalogs non-empty. -/
theorem claim_C6_discovery_safety (orInput : ORDiscoveryInput)
    (hfInput : HFDiscoveryInput) (st : ModelCacheState) (now : Nat) :
    discoverFreeOpenRouterModels orInput ≠ []
    ∧ discoverTrendingHFModels hfInput ≠ []
    ∧ (∀ e, discoverFreeOpenRouterModels (ORDiscoveryInput.fetchFail e)
        = SAFETY_FALLBACK_OPENROUTER)
    ∧ discoverFreeOpenRouterModels (ORDiscoveryInput.body none) = SAFETY_FALLBACK_OPENROUTER
    ∧ (∀ data : List ORModelEntry, data.filter isFreeModel = [] →
        discoverFreeOpenRouterModels (ORDiscoveryInput.body (some data))
          = SAFETY_FALLBACK_OPENROUTER)
    ∧ (∀ e, discoverTrendingHFModels (HFDiscoveryInput.fetchFail e) = SAFETY_FALLBACK_HF)
    ∧ discoverTrendingHFModels (HFDiscoveryInput.body none) = SAFETY_FALLBACK_HF
    ∧ (∀ data : List (List Char),
        data.filter (fun id => !(containsSeq ("gemma-7b".data) (id.map Char.toLower))) = [] →
        discoverTrendingHFModels (HFDiscoveryInput.body (some data)) = SAFETY_FALLBACK_HF)
    ∧ (CACHE_DURATION < now - st.lastDiscoveryTime ∨ st.cachedOpenRouterModels = [] →
        (refreshModelCache st now orInput hfInput).cachedOpenRouterModels ≠ []
        ∧ (refreshModelCache st now orInput hfInput).cachedHuggingFaceModels ≠ []) := by
  have hOR : ∀ i, discoverFreeOpenRouterModels i ≠ [] := by
    intro i
    match i with
    | ORDiscoveryInput.fetchFail e => simp [discoverFreeOpenRouterModels, SAFETY_FALLBACK_OPENROUTER]
    | ORDiscoveryInput.body none => simp [discoverFreeOpenRouterModels, SAFETY_FALLBACK_OPENROUTER]
    | ORDiscoveryInput.body (some data) =>
      simp only [discoverFreeOpenRouterModels]
      by_cases h : 0 < ((sortByScoreDesc (data.filter isFreeModel)).map ORModelEntry.id).length
      · rw [if_pos h]
        exact List.ne_nil_of_length_pos h
      · rw [if_neg h]
        simp [SAFETY_FALLBACK_OPENROUTER]
  have hHF : ∀ i, discoverTrendingHFModels i ≠ [] := by
    intro i
    match i with
    | HFDiscoveryInput.fetchFail e => simp [discoverTrendingHFModels, SAFETY_FALLBACK_HF]
    | HFDiscoveryInput.body none => simp [discoverTrendingHFModels, SAFETY_FALLBACK_HF]
    | HFDiscoveryInput.body (some data) =>
      simp [discoverTrendingHFModels, SAFETY_FALLBACK_HF, jsSetDedup]
  refine ⟨hOR orInput, hHF hfInput, fun e => rfl, rfl, ?_, fun e => rfl, rfl, ?_, ?_⟩
  · intro data h
    simp [discoverFreeOpenRouterModels, h, sortByScoreDesc]
  · intro data h
    simp only [discoverTrendingHFModels, h, List.append_nil]
    rfl
  · intro hcond
    have hr : refreshModelCache st now orInput hfInput
        = { cachedOpenRouterModels := discoverFreeOpenRouterModels orInput,
            cachedHuggingFaceModels := discoverTrendingHFModels hfInput,
            lastDiscoveryTime := now } := by
      simp [refreshModelCache, hcond]
    rw [hr]
    exact ⟨hOR orInput, hHF hfInput⟩

/-- Witness for C6 at a failing fetch and a stale empty cache. -/
theorem claim_C6_discovery_safety_witness :
    discoverFreeOpenRouterModels (ORDiscoveryInput.fetchFail "net down")
        = SAFETY_FALLBACK_OPENROUTER
    ∧ (refreshModelCache ⟨[], [], 0⟩ 0 (ORDiscoveryInput.fetchFail "net down")
        (HFDiscoveryInput.fetchFail "net down")).cachedOpenRouterModels ≠ [] := by
  have h := claim_C6_discovery_safety (ORDiscoveryInput.fetchFail "net down")
    (HFDiscoveryInput.fetchFail "net down") ⟨[], [], 0⟩ 0
  exact ⟨h.2.2.1 "net down", (h.2.2.2.2.2.2.2.2 (Or.inr rfl)).1⟩

/-! ### Claim C7 (corrected)

The swarm filter (line 415) is `r.success && r.text`: a fulfilled call
with empty text is dropped, so an all-empty-successes outcome makes the
swarm fail even though some calls succeeded. -/

/-- Counterexample to C7 as stated: one parallel call succeeds (with empty
text), so the claim requires the swarm not to fail and the synthesis input
to contain that success, but the code raises the swarm failure. -/
theorem claim_C7_counterexample :
    (swarmRecord "m" (Except.ok "")).success = true
    ∧ executeOpenRouterSwarm [("m", Except.ok "")] "p" = Except.error swarmFailMsg := by
  exact ⟨rfl, rfl⟩

/-- Claim C7 as amended: if zero calls succeed with non-empty text the
swarm attempt fails with the swarm error; otherwise it does not fail and
the synthesis prompt is built from exactly the records of the calls that
succeeded with non-empty text, in order (failed calls contribute
nothing); every record fed to synthesis stems from a successful call. -/
theorem claim_C7_swarm_synthesis (outcomes : List (String × Except String String))
    (prompt : String) :
    (successfulResponses outcomes = [] →
      executeOpenRouterSwarm outcomes prompt = Except.error swarmFailMsg)
    ∧ (successfulResponses outcomes ≠ [] →
      executeOpenRouterSwarm outcomes prompt
        = Except.ok (successfulResponses outcomes,
            synthesisPromptFor prompt (successfulResponses outcomes)))
    ∧ (successfulResponses outcomes).map (fun r => (r.model, r.text))
        = outcomes.filterMap (fun p =>
            match p.2 with
            | Except.ok t => if t = "" then none else some (p.1, t)
            | Except.error _ => none)
    ∧ (∀ r ∈ successfulResponses outcomes, r.success = true) := by
  refine ⟨?_, ?_, ?_, ?_⟩
  · intro h
    simp [executeOpenRouterSwarm, h]
  · intro h
    simp [executeOpenRouterSwarm, h]
  · induction outcomes with
    | nil => rfl
    | cons p rest ih =>
      match hp : p.2 with
      | Except.ok t =>
        by_cases ht : t = ""
        · simp [successfulResponses, List.filterMap_cons, swarmRecord, hp, ht] at ih ⊢
          exact ih
        · simp [successfulResponses, List.filterMap_cons, swarmRecord, hp, ht,
            List.filter_cons] at ih ⊢
          exact ih
      | Except.error e =>
        simp [successfulResponses, List.filterMap_cons, swarmRecord, hp,
          List.filter_cons] at ih ⊢
        exact ih
  · intro r hr
    have := List.of_mem_filter hr
    exact (Bool.and_eq_true _ _ |>.mp this).1


/-- Witness for the amended C7: with three successes and two failures the
call does not fail and the synthesis input is exactly the three
successful (model, text) pairs in order. -/
theorem claim_C7_swarm_synthesis_witness :
    executeOpenRouterSwarm c7Outcomes "q"
      = Except.ok (successfulResponses c7Outcomes,
          synthesisPromptFor "q" (successfulResponses c7Outcomes))
    ∧ (successfulResponses c7Outcomes).map (fun r => (r.model, r.text))
        = [("mA", "A"), ("mC", "C"), ("mE", "E")] := by
  have h := claim_C7_swarm_synthesis c7Outcomes "q"
  exact ⟨h.2.1 (by decide), h.2.2.1.trans rfl⟩

/-! ### Claim C8: hybrid degrade without credentials -/

/-- Claim C8: when neither OpenRouter nor Hugging Face credentials are
configured, `getMultiModelResponse` degrades to a single
primary-provider call: the whole computation settles to the outcome of
the one gemini attempt (no parallel fan-out is consulted), and the
delegated orchestrator call's trial list is exactly `[gemini]`. -/
theorem claim_C8_hybrid_degrade (orc : HybridOracle) (s : AISettings)
    (req : FallbackRequest) (fuel : Nat)
    (hor : s.openRouterApiKeys = []) (hhf : s.huggingFaceApiKeys = []) :
    hybridInterp orc false s req (fuel + 2)
      = (match orc.attempt AIProvider.gemini with
         | Except.ok r => some (Except.ok r)
         | Except.error e => some (Except.error (allProvidersFailedMsg (some e))))
    ∧ fallbackProviders { s with provider := AIProvider.gemini } = [AIProvider.gemini] := by
  have hdeg : hybridDegrades s = true := by
    simp [hybridDegrades, hor, hhf]
  have htail : fallbackProvidersTail { s with provider := AIProvider.gemini } = [] := by
    simp [fallbackProvidersTail, getOpenRouterKeys, getHuggingFaceKeys, hor, hhf]
  have hsw : swarmEligible { s with provider := AIProvider.gemini }
      { jsonMode := false, hasFiles := false } = false := by
    simp [swarmEligible, getOpenRouterKeys, hor]
  constructor
  · show hybridInterp orc false s req (Nat.succ (fuel + 1)) = _
    rw [show hybridInterp orc false s req (Nat.succ (fuel + 1))
        = hybridInterp orc true { s with provider := AIProvider.gemini }
            { jsonMode := false, hasFiles := false } (fuel + 1) by
      simp [hybridInterp, hdeg]]
    show hybridInterp orc true _ _ (Nat.succ fuel) = _
    simp only [hybridInterp, hsw, Bool.false_eq_true, if_false, htail]
    match horc : orc.attempt AIProvider.gemini with
    | Except.ok r => simp [horc]
    | Except.error e => simp [horc, runProviders]
  · rw [fallbackProviders, htail]


/-- Witness for C8: without credentials the hybrid call settles to the
single gemini attempt's answer. -/
theorem claim_C8_hybrid_degrade_witness :
    hybridInterp c8Oracle false c8Settings ⟨false, false⟩ 2 = some (Except.ok "g") := by
  have h := claim_C8_hybrid_degrade c8Oracle c8Settings ⟨false, false⟩ 0 rfl rfl
  exact h.1.trans rfl

/-! ### Claim C10: uncapped mutual recursion of the hybrid synthesis -/

/-- Claim C10: the hybrid engine's synthesis re-invokes the orchestrator
with the caller's settings unchanged, unlike the swarm synthesis which
forces provider `gemini` and disables complex-task mode; hence for
settings choosing `hybrid` with at least one credential set, the
orchestrator's trial list again begins with `hybrid`, the synthesis
re-enters the hybrid engine, and the mutual recursion has no depth cap:
when at least one parallel branch always succeeds (and the swarm
pre-step never intercepts), the computation fails to settle at every
fuel; it settles at the hybrid level only when every parallel branch
fails. -/
theorem claim_C10_hybrid_recursion_uncapped (orc : HybridOracle) (s : AISettings)
    (hprov : s.provider = AIProvider.hybrid)
    (hcred : hybridDegrades s = false)
    (hbr : (orc.branches s).filterMap id ≠ [])
    (hsw : s.isComplexTaskMode = false ∨ ∃ e, orc.swarm = Except.error e) :
    (fallbackProviders s).head? = some AIProvider.hybrid
    ∧ (swarmSynthesisSettings s).provider = AIProvider.gemini
    ∧ (swarmSynthesisSettings s).isComplexTaskMode = false
    ∧ (∀ req fuel, hybridInterp orc false s req (fuel + 1)
        = hybridInterp orc true s { jsonMode := false, hasFiles := false } fuel)
    ∧ (∀ req fuel, hybridInterp orc true s req fuel = none
        ∧ hybridInterp orc false s req fuel = none)
    ∧ (∀ orc2 : HybridOracle, (orc2.branches s).filterMap id = [] →
        ∀ req fuel, hybridInterp orc2 false s req (fuel + 1)
          = some (Except.error hybridSynthFailMsg)) := by
  have hswe : ∀ req : FallbackRequest, s.isComplexTaskMode = false →
      swarmEligible s req = false := by
    intro req h
    simp [swarmEligible, h]
  have hsynth : ∀ req fuel, hybridInterp orc false s req (fuel + 1)
      = hybridInterp orc true s { jsonMode := false, hasFiles := false } fuel := by
    intro req fuel
    show hybridInterp orc false s req (Nat.succ fuel) = _
    simp only [hybridInterp, hcred, Bool.false_eq_true, if_false]
    match hb : (orc.branches s).filterMap id with
    | [] => exact absurd hb hbr
    | _ :: _ => rfl
  refine ⟨by rw [fallbackProviders, List.head?_cons, hprov], rfl, rfl, hsynth, ?_, ?_⟩
  · intro req fuel
    induction fuel generalizing req with
    | zero => exact ⟨rfl, rfl⟩
    | succ f ih =>
      have htrue : hybridInterp orc true s req (f + 1) = none := by
        show hybridInterp orc true s req (Nat.succ f) = none
        have hhead : (if s.provider = AIProvider.hybrid
            then hybridInterp orc false s req f
            else some (orc.attempt s.provider)) = none := by
          rw [if_pos hprov]
          exact (ih req).2
        rcases hsw with hc | ⟨e, he⟩
        · simp only [hybridInterp, hswe req hc, Bool.false_eq_true, if_false, hhead]
        · simp only [hybridInterp, he, hhead]
          by_cases hel : swarmEligible s req = true <;> simp [hel]
      refine ⟨htrue, ?_⟩
      rw [hsynth req f]
      exact (ih { jsonMode := false, hasFiles := false }).1
  · intro orc2 hb2 req fuel
    show hybridInterp orc2 false s req (Nat.succ fuel) = _
    simp [hybridInterp, hcred, hb2]


/-- Witness for C10: with hybrid settings, OpenRouter credentials and an
always-succeeding branch, the computation does not settle within fuel 6,
and the trial list begins with `hybrid`. -/
theorem claim_C10_hybrid_recursion_uncapped_witness :
    hybridInterp c10Oracle true c10Settings ⟨false, false⟩ 6 = none
    ∧ (fallbackProviders c10Settings).head? = some AIProvider.hybrid := by
  have h := claim_C10_hybrid_recursion_uncapped c10Oracle c10Settings rfl (by decide)
    (by decide) (Or.inl rfl)
  exact ⟨(h.2.2.2.2.1 ⟨false, false⟩ 6).1, h.1⟩

/-! ### JSON round-trip: digits and numbers -/

theorem digitChar_isDigit (d : Nat) (h : d < 10) : (digitChar d).isDigit = true := by
  interval_cases d <;> decide

theorem digitVal_digitChar (d : Nat) (h : d < 10) : digitVal (digitChar d) = d := by
  interval_cases d <;> decide

theorem natDigitsAux_digits :
    ∀ (f n : Nat), ∀ c ∈ natDigitsAux f n, c.isDigit = true := by
  intro f
  induction f with
  | zero => intro n c hc; simp [natDigitsAux] at hc
  | succ f ih =>
    intro n c hc
    match n with
    | 0 =>
      rw [List.mem_singleton.mp hc]
      decide
    | Nat.succ m =>
      simp only [natDigitsAux] at hc
      by_cases h : Nat.succ m < 10
      · rw [if_pos h] at hc
        rw [List.mem_singleton.mp hc]
        exact digitChar_isDigit _ h
      · rw [if_neg h] at hc
        rcases List.mem_append.mp hc with h2 | h2
        · exact ih _ c h2
        · rw [List.mem_singleton.mp h2]
          exact digitChar_isDigit _ (Nat.mod_lt _ (by omega))

theorem natDigitsAux_ne_nil (f n : Nat) (h : 0 < f) : natDigitsAux f n ≠ [] := by
  match f, n with
  | Nat.succ f, 0 => simp [natDigitsAux]
  | Nat.succ f, Nat.succ m =>
    simp only [natDigitsAux]
    by_cases h2 : Nat.succ m < 10
    · rw [if_pos h2]; simp
    · rw [if_neg h2]; simp

theorem digitsVal_append_singleton (l : List Char) (c : Char) :
    digitsVal (l ++ [c]) = 10 * digitsVal l + digitVal c := by
  simp [digitsVal, List.foldl_append]

theorem digitsVal_natDigitsAux :
    ∀ (f n : Nat), n < f → digitsVal (natDigitsAux f n) = n := by
  intro f
  induction f with
  | zero => intro n h; omega
  | succ f ih =>
    intro n h
    match n with
    | 0 => rfl
    | Nat.succ m =>
      simp only [natDigitsAux]
      by_cases h2 : Nat.succ m < 10
      · rw [if_pos h2]
        show digitsVal [digitChar (m + 1)] = m + 1
        have := digitVal_digitChar (m + 1) h2
        simp [digitsVal, this]
      · rw [if_neg h2]
        rw [digitsVal_append_singleton]
        have hdiv : Nat.succ m / 10 < f := by omega
        rw [ih _ hdiv, digitVal_digitChar _ (Nat.mod_lt _ (by omega))]
        omega

theorem natToDigits_ne_nil (n : Nat) : natToDigits n ≠ [] :=
  natDigitsAux_ne_nil (n + 1) n (by omega)

theorem natToDigits_digits (n : Nat) : ∀ c ∈ natToDigits n, c.isDigit = true :=
  natDigitsAux_digits (n + 1) n

theorem digitsVal_natToDigits (n : Nat) : digitsVal (natToDigits n) = n :=
  digitsVal_natDigitsAux (n + 1) n (by omega)

theorem natToDigits_cons (n : Nat) :
    ∃ c cs, natToDigits n = c :: cs ∧ c.isDigit = true := by
  match h : natToDigits n with
  | [] => exact absurd h (natToDigits_ne_nil n)
  | c :: cs =>
    refine ⟨c, cs, rfl, ?_⟩
    have := natToDigits_digits n
    rw [h] at this
    exact this c (List.mem_cons_self c cs)

theorem isDigit_not_ws (c : Char) (h : c.isDigit = true) : isJsWhitespace c = false := by
  by_contra h2
  rw [Bool.not_eq_false] at h2
  simp only [isJsWhitespace, Bool.or_eq_true, decide_eq_true_eq] at h2
  rcases h2 with (((((rfl | rfl) | rfl) | rfl) | rfl) | rfl) <;> simp at h

theorem isJsonWs_of_isJsWhitespace (c : Char) (h : isJsonWs c = true) :
    isJsWhitespace c = true := by
  simp only [isJsonWs, Bool.or_eq_true, decide_eq_true_eq] at h
  rcases h with (((rfl | rfl) | rfl) | rfl) <;> decide

theorem isDigit_not_jsonWs (c : Char) (h : c.isDigit = true) : isJsonWs c = false := by
  by_contra h2
  rw [Bool.not_eq_false] at h2
  simp only [isJsonWs, Bool.or_eq_true, decide_eq_true_eq] at h2
  rcases h2 with (((rfl | rfl) | rfl) | rfl) <;> simp at h

theorem takeWhile_all_append (p : Char → Bool) :
    ∀ (a b : List Char), (∀ c ∈ a, p c = true) →
      (∀ c, b.head? = some c → p c = false) →
      (a ++ b).takeWhile p = a := by
  intro a
  induction a with
  | nil =>
    intro b _ hb
    match b with
    | [] => rfl
    | c :: rest =>
      simp [List.takeWhile_cons, hb c rfl]
  | cons x xs ih =>
    intro b ha hb
    have hx : p x = true := ha x (List.mem_cons_self x xs)
    simp [List.takeWhile_cons, hx, ih b (fun c hc => ha c (List.mem_cons_of_mem _ hc)) hb]

theorem numStop_head_not_digit (l : List Char) (h : numStop l = true) :
    ∀ c, l.head? = some c → c.isDigit = false := by
  intro c hc
  match l with
  | [] => simp at hc
  | x :: xs =>
    have hxc : x = c := by simpa using hc
    subst hxc
    simp only [numStop, Bool.not_eq_true', Bool.or_eq_false_iff] at h
    exact h.1.1.1

theorem parseNumAbs_natToDigits (neg : Bool) (n : Nat) (rest : List Char)
    (h : numStop rest = true) :
    parseNumAbs neg (natToDigits n ++ rest)
      = some (Json.num (if neg then -(Int.ofNat n) else Int.ofNat n), rest) := by
  have htake : (natToDigits n ++ rest).takeWhile Char.isDigit = natToDigits n :=
    takeWhile_all_append Char.isDigit (natToDigits n) rest (natToDigits_digits n)
      (numStop_head_not_digit rest h)
  simp only [parseNumAbs, htake, List.drop_left]
  rw [if_neg (by simp [natToDigits_ne_nil n]), if_pos h, digitsVal_natToDigits]

theorem digit_ne_minus (c : Char) (h : c.isDigit = true) : ¬(c = '-') := by
  intro h2
  subst h2
  simp at h

theorem parseNumber_intToDigits (n : Int) (rest : List Char) (h : numStop rest = true) :
    parseNumber (intToDigits n ++ rest) = some (Json.num n, rest) := by
  by_cases hn : n < 0
  · have hser : intToDigits n = '-' :: natToDigits n.natAbs := by
      simp [intToDigits, hn]
    rw [hser]
    show parseNumber ('-' :: (natToDigits n.natAbs ++ rest)) = _
    have hstep : parseNumber ('-' :: (natToDigits n.natAbs ++ rest))
        = parseNumAbs true (natToDigits n.natAbs ++ rest) := by
      simp [parseNumber]
    rw [hstep, parseNumAbs_natToDigits true n.natAbs rest h]
    have hval : -(Int.ofNat n.natAbs) = n := by
      simp only [Int.ofNat_eq_coe]
      omega
    rw [if_pos rfl, hval]
  · have hser : intToDigits n = natToDigits n.natAbs := by
      simp [intToDigits, hn]
    obtain ⟨c, cs, hcons, hdig⟩ := natToDigits_cons n.natAbs
    rw [hser, hcons]
    show parseNumber (c :: (cs ++ rest)) = _
    have hstep : parseNumber (c :: (cs ++ rest)) = parseNumAbs false (c :: (cs ++ rest)) := by
      simp [parseNumber, digit_ne_minus c hdig]
    rw [hstep]
    rw [show c :: (cs ++ rest) = (c :: cs) ++ rest from rfl, ← hcons]
    rw [parseNumAbs_natToDigits false n.natAbs rest h]
    have hval : (Int.ofNat n.natAbs) = n := by
      simp only [Int.ofNat_eq_coe]
      omega
    rw [if_neg (by decide), hval]

/-! ### JSON round-trip: strings -/

theorem parseStringBody_escape :
    ∀ (s : List Char) (rest : List Char), strOk s = true →
      parseStringBody (escapeString s ++ '"' :: rest) = some (s, rest) := by
  intro s
  induction s with
  | nil =>
    intro rest _
    show parseStringBody ('"' :: rest) = some ([], rest)
    rw [parseStringBody.eq_def]
    rfl
  | cons c cs ih =>
    intro rest hok
    have hok2 : strOk cs = true := by
      simp only [strOk, List.all_cons, Bool.and_eq_true] at hok
      exact hok.2
    have hc : (32 ≤ c.toNat || c = '\n' || c = '\t' || c = '\r') = true := by
      simp only [strOk, List.all_cons, Bool.and_eq_true] at hok
      exact hok.1
    by_cases h1 : c = '"'
    · subst h1
      show parseStringBody ('\\' :: '"' :: (escapeString cs ++ '"' :: rest)) = _
      rw [parseStringBody.eq_def]
      simp [unescapeChar, ih rest hok2]
    · by_cases h2 : c = '\\'
      · subst h2
        show parseStringBody ('\\' :: '\\' :: (escapeString cs ++ '"' :: rest)) = _
        rw [parseStringBody.eq_def]
        simp [unescapeChar, ih rest hok2]
      · by_cases h3 : c = '\n'
        · subst h3
          show parseStringBody ('\\' :: 'n' :: (escapeString cs ++ '"' :: rest)) = _
          rw [parseStringBody.eq_def]
          simp [unescapeChar, ih rest hok2]
        · by_cases h4 : c = '\t'
          · subst h4
            show parseStringBody ('\\' :: 't' :: (escapeString cs ++ '"' :: rest)) = _
            rw [parseStringBody.eq_def]
            simp [unescapeChar, ih rest hok2]
          · by_cases h5 : c = '\r'
            · subst h5
              show parseStringBody ('\\' :: 'r' :: (escapeString cs ++ '"' :: rest)) = _
              rw [parseStringBody.eq_def]
              simp [unescapeChar, ih rest hok2]
            · have hesc : escChar c = [c] := by
                simp [escChar, h1, h2, h3, h4, h5]
              have hge : 32 ≤ c.toNat := by
                simp only [Bool.or_eq_true, decide_eq_true_eq] at hc
                rcases hc with ((hc | hc) | hc) | hc
                · exact hc
                · exact absurd hc h3
                · exact absurd hc h4
                · exact absurd hc h5
              show parseStringBody (escChar c ++ escapeString cs ++ '"' :: rest) = _
              rw [hesc]
              show parseStringBody (c :: (escapeString cs ++ '"' :: rest)) = _
              rw [parseStringBody.eq_def]
              simp [h1, h2, Nat.not_lt_of_le hge, ih rest hok2]

/-! ### JSON round-trip: serializer shape facts -/

theorem serializeJson_cons :
    ∀ v : Json, ∃ c cs, serializeJson v = c :: cs
      ∧ isJsWhitespace c = false ∧ c ≠ ']' ∧ c ≠ '`' := by
  intro v
  match v with
  | Json.null => exact ⟨'n', _, rfl, by decide, by decide, by decide⟩
  | Json.bool true => exact ⟨'t', _, rfl, by decide, by decide, by decide⟩
  | Json.bool false => exact ⟨'f', _, rfl, by decide, by decide, by decide⟩
  | Json.str s => exact ⟨'"', _, rfl, by decide, by decide, by decide⟩
  | Json.arr xs => exact ⟨'[', _, rfl, by decide, by decide, by decide⟩
  | Json.obj kvs => exact ⟨'\x7b', _, rfl, by decide, by decide, by decide⟩
  | Json.num n =>
    by_cases hn : n < 0
    · refine ⟨'-', natToDigits n.natAbs, ?_, by decide, by decide, by decide⟩
      show intToDigits n = '-' :: natToDigits n.natAbs
      simp [intToDigits, hn]
    · obtain ⟨c, cs, hcons, hdig⟩ := natToDigits_cons n.natAbs
      refine ⟨c, cs, ?_, isDigit_not_ws c hdig, ?_, ?_⟩
      · show intToDigits n = c :: cs
        simp [intToDigits, hn, hcons]
      · intro h; subst h; simp at hdig
      · intro h; subst h; simp at hdig

theorem serializeJson_head_not_jsonWs (v : Json) :
    ∀ c, (serializeJson v).head? = some c → isJsonWs c = false := by
  obtain ⟨c0, cs, hcons, hws, _, _⟩ := serializeJson_cons v
  intro c hc
  rw [hcons] at hc
  have : c0 = c := by simpa using hc
  subst this
  by_contra h2
  rw [Bool.not_eq_false] at h2
  rw [isJsonWs_of_isJsWhitespace c0 h2] at hws
  exact absurd hws (by decide)

theorem skipWs_append_of_head (l rest : List Char)
    (h : ∀ c, l.head? = some c → isJsonWs c = false) (hne : l ≠ []) :
    skipWs (l ++ rest) = l ++ rest := by
  match l with
  | [] => exact absurd rfl hne
  | c :: cs =>
    show skipWs (c :: (cs ++ rest)) = _
    simp [skipWs, List.dropWhile_cons, h c rfl]

theorem serializeJson_last :
    ∀ v : Json, ∃ a c, serializeJson v = a ++ [c] ∧ isJsWhitespace c = false := by
  intro v
  match v with
  | Json.null => exact ⟨['n', 'u', 'l'], 'l', rfl, by decide⟩
  | Json.bool true => exact ⟨['t', 'r', 'u'], 'e', rfl, by decide⟩
  | Json.bool false => exact ⟨['f', 'a', 'l', 's'], 'e', rfl, by decide⟩
  | Json.str s =>
    refine ⟨'"' :: escapeString s, '"', ?_, by decide⟩
    show '"' :: escapeString s ++ ['"'] = _
    simp
  | Json.arr xs =>
    refine ⟨'[' :: serializeElems xs, ']', ?_, by decide⟩
    show '[' :: serializeElems xs ++ [']'] = _
    simp
  | Json.obj kvs =>
    refine ⟨'\x7b' :: serializeMembers kvs, '\x7d', ?_, by decide⟩
    show '\x7b' :: serializeMembers kvs ++ ['\x7d'] = _
    simp
  | Json.num n =>
    rcases List.eq_nil_or_concat (natToDigits n.natAbs) with hnil | ⟨a, c, hsplit⟩
    · exact absurd hnil (natToDigits_ne_nil n.natAbs)
    · have hc : c.isDigit = true := by
        apply natToDigits_digits n.natAbs
        rw [hsplit, List.concat_eq_append]
        simp
      have hser : serializeJson (Json.num n) = intToDigits n := rfl
      by_cases hn : n < 0
      · refine ⟨'-' :: a, c, ?_, isDigit_not_ws c hc⟩
        rw [hser]
        simp [intToDigits, hn, hsplit, List.concat_eq_append]
      · refine ⟨a, c, ?_, isDigit_not_ws c hc⟩
        rw [hser]
        simp [intToDigits, hn, hsplit, List.concat_eq_append]

theorem not_jsWs_not_jsonWs (c : Char) (h : isJsWhitespace c = false) :
    isJsonWs c = false := by
  by_contra h2
  rw [Bool.not_eq_false] at h2
  rw [isJsonWs_of_isJsWhitespace c h2] at h
  exact absurd h (by decide)

theorem jfuel_pos (v : Json) : 1 ≤ jfuel v := by
  match v with
  | Json.null => exact Nat.le_refl 1
  | Json.bool b => exact Nat.le_refl 1
  | Json.num n => exact Nat.le_refl 1
  | Json.str s => exact Nat.le_refl 1
  | Json.arr xs =>
    show 1 ≤ 1 + jfuelElems xs
    omega
  | Json.obj kvs =>
    show 1 ≤ 1 + jfuelMembers kvs
    omega

mutual
theorem jfuel_le_len : ∀ v : Json, jfuel v ≤ (serializeJson v).length + 1
  | Json.null => by decide
  | Json.bool b => by cases b <;> decide
  | Json.num n => by
    show 1 ≤ (serializeJson (Json.num n)).length + 1
    omega
  | Json.str s => by
    show 1 ≤ (serializeJson (Json.str s)).length + 1
    omega
  | Json.arr xs => by
    have h := jfuelElems_le_len xs
    show 1 + jfuelElems xs ≤ ('[' :: (serializeElems xs ++ [']'])).length + 1
    simp only [List.length_cons, List.length_append]
    omega
  | Json.obj kvs => by
    have h := jfuelMembers_le_len kvs
    show 1 + jfuelMembers kvs ≤ ('\x7b' :: (serializeMembers kvs ++ ['\x7d'])).length + 1
    simp only [List.length_cons, List.length_append]
    omega
theorem jfuelElems_le_len : ∀ xs : List Json, jfuelElems xs ≤ (serializeElems xs).length + 2
  | [] => by
    show 0 ≤ (serializeElems []).length + 2
    omega
  | [x] => by
    have h := jfuel_le_len x
    show 1 + max (jfuel x) (jfuelElems []) ≤ (serializeJson x).length + 2
    have hz : jfuelElems ([] : List Json) = 0 := rfl
    rw [hz]
    omega
  | x :: y :: ys => by
    have h1 := jfuel_le_len x
    have h2 := jfuelElems_le_len (y :: ys)
    show 1 + max (jfuel x) (jfuelElems (y :: ys))
      ≤ (serializeJson x ++ (',' :: serializeElems (y :: ys))).length + 2
    simp only [List.length_append, List.length_cons]
    omega
theorem jfuelMembers_le_len :
    ∀ kvs : List (List Char × Json), jfuelMembers kvs ≤ (serializeMembers kvs).length + 2
  | [] => by
    show 0 ≤ (serializeMembers []).length + 2
    omega
  | [kv] => by
    have h := jfuel_le_len kv.2
    show 1 + max (jfuel kv.2) (jfuelMembers [])
      ≤ ('"' :: (escapeString kv.1 ++ ('"' :: (':' :: serializeJson kv.2)))).length + 2
    have hz : jfuelMembers ([] : List (List Char × Json)) = 0 := rfl
    rw [hz]
    simp only [List.length_cons, List.length_append]
    omega
  | kv :: kv2 :: kvs => by
    have h1 := jfuel_le_len kv.2
    have h2 := jfuelMembers_le_len (kv2 :: kvs)
    show 1 + max (jfuel kv.2) (jfuelMembers (kv2 :: kvs))
      ≤ (('"' :: (escapeString kv.1 ++ ('"' :: (':' :: serializeJson kv.2))))
          ++ (',' :: serializeMembers (kv2 :: kvs))).length + 2
    simp only [List.length_append, List.length_cons]
    omega
end

/-! ### JSON round-trip: `parseValue` dispatch lemmas -/

theorem parseValue_digit_dispatch (f : Nat) (c : Char) (X : List Char)
    (hd : c.isDigit = true) :
    parseValue (f + 1) (c :: X) = parseNumber (c :: X) := by
  simp [parseValue,
    show skipWs (c :: X) = c :: X from by
      simp [skipWs, List.dropWhile_cons, isDigit_not_jsonWs c hd], hd]

theorem parseValue_int_dispatch (f : Nat) (n : Int) (X : List Char) :
    parseValue (f + 1) (intToDigits n ++ X) = parseNumber (intToDigits n ++ X) := by
  by_cases hn : n < 0
  · rw [show intToDigits n = '-' :: natToDigits n.natAbs from by simp [intToDigits, hn]]
    rfl
  · have heq : intToDigits n = natToDigits n.natAbs := by simp [intToDigits, hn]
    obtain ⟨c, cs, hcons, hdig⟩ := natToDigits_cons n.natAbs
    rw [heq, hcons]
    show parseValue (f + 1) (c :: (cs ++ X)) = parseNumber (c :: (cs ++ X))
    exact parseValue_digit_dispatch f c (cs ++ X) hdig

/-! ### JSON round-trip: the main induction on fuel -/

mutual
theorem parseValue_ser :
    ∀ (fuel : Nat) (v : Json) (rest : List Char), jsonWf v = true →
      numStop rest = true → jfuel v ≤ fuel →
      parseValue fuel (serializeJson v ++ rest) = some (v, rest)
  | 0, v, _rest => by
    intro _ _ hf
    exact absurd hf (by have := jfuel_pos v; omega)
  | Nat.succ f, v, rest => by
    intro hwf hstop hfuel
    match v with
    | Json.null => exact rfl
    | Json.bool true => exact rfl
    | Json.bool false => exact rfl
    | Json.num n =>
      show parseValue (f + 1) (intToDigits n ++ rest) = some (Json.num n, rest)
      rw [parseValue_int_dispatch f n rest]
      exact parseNumber_intToDigits n rest hstop
    | Json.str s =>
      have hshape : serializeJson (Json.str s) ++ rest
          = '"' :: (escapeString s ++ ('"' :: rest)) := by
        show ('"' :: (escapeString s ++ ['"'])) ++ rest = _
        simp [List.append_assoc]
      rw [hshape]
      have hb := parseStringBody_escape s rest hwf
      show (match parseStringBody (escapeString s ++ ('"' :: rest)) with
            | none => none
            | some (s2, r) => some (Json.str s2, r)) = some (Json.str s, rest)
      rw [hb]
    | Json.arr xs =>
      have hshape : serializeJson (Json.arr xs) ++ rest
          = '[' :: (serializeElems xs ++ (']' :: rest)) := by
        show ('[' :: (serializeElems xs ++ [']'])) ++ rest = _
        simp [List.append_assoc]
      rw [hshape]
      match xs with
      | [] => exact rfl
      | x :: xs2 =>
        obtain ⟨c0, cs0, hc0, hws0, hne0, _⟩ := serializeJson_cons x
        have hex : ∃ t, serializeElems (x :: xs2) = serializeJson x ++ t := by
          match xs2 with
          | [] => exact ⟨[], by simp [serializeElems]⟩
          | y :: ys => exact ⟨',' :: serializeElems (y :: ys), rfl⟩
        obtain ⟨t, ht⟩ := hex
        have hX : serializeElems (x :: xs2) ++ (']' :: rest)
            = c0 :: (cs0 ++ (t ++ (']' :: rest))) := by
          rw [ht, hc0]
          simp [List.append_assoc]
        have hskip : skipWs (c0 :: (cs0 ++ (t ++ (']' :: rest))))
            = c0 :: (cs0 ++ (t ++ (']' :: rest))) := by
          simp [skipWs, List.dropWhile_cons, not_jsWs_not_jsonWs c0 hws0]
        show (match skipWs (serializeElems (x :: xs2) ++ (']' :: rest)) with
              | [] => none
              | c2 :: r2 =>
                if c2 = ']' then some (Json.arr [], r2)
                else parseElems f (c2 :: r2) []) = some (Json.arr (x :: xs2), rest)
        rw [hX, hskip]
        show (if c0 = ']' then some (Json.arr [], cs0 ++ (t ++ (']' :: rest)))
              else parseElems f (c0 :: (cs0 ++ (t ++ (']' :: rest)))) [])
            = some (Json.arr (x :: xs2), rest)
        rw [if_neg hne0, ← hX]
        have hfe : jfuelElems (x :: xs2) ≤ f := by
          have : jfuel (Json.arr (x :: xs2)) = 1 + jfuelElems (x :: xs2) := rfl
          omega
        exact parseElems_ser f (x :: xs2) [] rest hwf (by simp) hfe
    | Json.obj kvs =>
      have hshape : serializeJson (Json.obj kvs) ++ rest
          = '\x7b' :: (serializeMembers kvs ++ ('\x7d' :: rest)) := by
        show ('\x7b' :: (serializeMembers kvs ++ ['\x7d'])) ++ rest = _
        simp [List.append_assoc]
      rw [hshape]
      match kvs with
      | [] => exact rfl
      | kv :: kvs2 =>
        have hex : ∃ T, serializeMembers (kv :: kvs2) = '"' :: T := by
          match kvs2 with
          | [] => exact ⟨escapeString kv.1 ++ ('"' :: (':' :: serializeJson kv.2)), rfl⟩
          | kv2 :: kvs3 =>
            exact ⟨(escapeString kv.1 ++ ('"' :: (':' :: serializeJson kv.2)))
              ++ (',' :: serializeMembers (kv2 :: kvs3)), rfl⟩
        obtain ⟨T, hT⟩ := hex
        have hX : serializeMembers (kv :: kvs2) ++ ('\x7d' :: rest)
            = '"' :: (T ++ ('\x7d' :: rest)) := by
          rw [hT]
          rfl
        show (match skipWs (serializeMembers (kv :: kvs2) ++ ('\x7d' :: rest)) with
              | [] => none
              | c2 :: r2 =>
                if c2 = '\x7d' then some (Json.obj [], r2)
                else parseMembers f (c2 :: r2) []) = some (Json.obj (kv :: kvs2), rest)
        rw [hX]
        show (if ('"' : Char) = '\x7d'
              then some (Json.obj [], T ++ ('\x7d' :: rest))
              else parseMembers f ('"' :: (T ++ ('\x7d' :: rest))) [])
            = some (Json.obj (kv :: kvs2), rest)
        rw [if_neg (by decide), ← hX]
        have hfm : jfuelMembers (kv :: kvs2) ≤ f := by
          have : jfuel (Json.obj (kv :: kvs2)) = 1 + jfuelMembers (kv :: kvs2) := rfl
          omega
        exact parseMembers_ser f (kv :: kvs2) [] rest hwf (by simp) hfm
theorem parseElems_ser :
    ∀ (fuel : Nat) (xs : List Json) (acc : List Json) (rest : List Char),
      jsonWfElems xs = true → xs ≠ [] → jfuelElems xs ≤ fuel →
      parseElems fuel (serializeElems xs ++ (']' :: rest)) acc
        = some (Json.arr (acc ++ xs), rest)
  | 0, xs, acc, rest => by
    intro _ hne hf
    match xs with
    | [] => exact absurd rfl hne
    | x :: xs2 =>
      exact absurd hf (by have : jfuelElems (x :: xs2) = 1 + max (jfuel x) (jfuelElems xs2) := rfl; omega)
  | Nat.succ f, xs, acc, rest => by
    intro hwf hne hfuel
    match xs with
    | [] => exact absurd rfl hne
    | [x] =>
      have hwx : jsonWf x = true := by
        have h2 : (jsonWf x && jsonWfElems []) = true := hwf
        exact (Bool.and_eq_true _ _ |>.mp h2).1
      have hfx : jfuel x ≤ f := by
        have : jfuelElems [x] = 1 + max (jfuel x) (jfuelElems ([] : List Json)) := rfl
        have hz : jfuelElems ([] : List Json) = 0 := rfl
        omega
      have hv := parseValue_ser f x (']' :: rest) hwx rfl hfx
      show parseElems (f + 1) (serializeJson x ++ (']' :: rest)) acc = _
      simp [parseElems, hv, show skipWs (']' :: rest) = ']' :: rest from rfl]
    | x :: y :: ys =>
      have hwx : jsonWf x = true := by
        have h2 : (jsonWf x && jsonWfElems (y :: ys)) = true := hwf
        exact (Bool.and_eq_true _ _ |>.mp h2).1
      have hwrest : jsonWfElems (y :: ys) = true := by
        have h2 : (jsonWf x && jsonWfElems (y :: ys)) = true := hwf
        exact (Bool.and_eq_true _ _ |>.mp h2).2
      have hfsplit : jfuelElems (x :: y :: ys) = 1 + max (jfuel x) (jfuelElems (y :: ys)) := rfl
      have hfx : jfuel x ≤ f := by omega
      have hfrest : jfuelElems (y :: ys) ≤ f := by omega
      have hshape : serializeElems (x :: y :: ys) ++ (']' :: rest)
          = serializeJson x ++ (',' :: (serializeElems (y :: ys) ++ (']' :: rest))) := by
        show (serializeJson x ++ (',' :: serializeElems (y :: ys))) ++ (']' :: rest) = _
        simp [List.append_assoc]
      rw [hshape]
      have hv := parseValue_ser f x (',' :: (serializeElems (y :: ys) ++ (']' :: rest)))
        hwx rfl hfx
      have hrec := parseElems_ser f (y :: ys) (acc ++ [x]) rest hwrest (by simp) hfrest
      simp only [parseElems, hv,
        show skipWs (',' :: (serializeElems (y :: ys) ++ (']' :: rest)))
          = ',' :: (serializeElems (y :: ys) ++ (']' :: rest)) from rfl]
      rw [show (acc ++ [x]) ++ (y :: ys) = acc ++ (x :: y :: ys) by simp] at hrec
      exact hrec
theorem parseMembers_ser :
    ∀ (fuel : Nat) (kvs : List (List Char × Json)) (acc : List (List Char × Json))
      (rest : List Char),
      jsonWfMembers kvs = true → kvs ≠ [] → jfuelMembers kvs ≤ fuel →
      parseMembers fuel (serializeMembers kvs ++ ('\x7d' :: rest)) acc
        = some (Json.obj (acc ++ kvs), rest)
  | 0, kvs, acc, rest => by
    intro _ hne hf
    match kvs with
    | [] => exact absurd rfl hne
    | kv :: kvs2 =>
      exact absurd hf
        (by have : jfuelMembers (kv :: kvs2) = 1 + max (jfuel kv.2) (jfuelMembers kvs2) := rfl
            omega)
  | Nat.succ f, kvs, acc, rest => by
    intro hwf hne hfuel
    match kvs with
    | [] => exact absurd rfl hne
    | [(k, v)] =>
      have hwsplit : ((strOk k && jsonWf v) && jsonWfMembers ([] : List (List Char × Json)))
          = true := hwf
      have hks : strOk k = true :=
        ((Bool.and_eq_true _ _ |>.mp (Bool.and_eq_true _ _ |>.mp hwsplit).1)).1
      have hwv : jsonWf v = true :=
        ((Bool.and_eq_true _ _ |>.mp (Bool.and_eq_true _ _ |>.mp hwsplit).1)).2
      have hfv : jfuel v ≤ f := by
        have : jfuelMembers [(k, v)]
            = 1 + max (jfuel v) (jfuelMembers ([] : List (List Char × Json))) := rfl
        have hz : jfuelMembers ([] : List (List Char × Json)) = 0 := rfl
        omega
      have hshape : serializeMembers [(k, v)] ++ ('\x7d' :: rest)
          = '"' :: (escapeString k ++ ('"' :: (':' :: (serializeJson v ++ ('\x7d' :: rest))))) := by
        show ('"' :: (escapeString k ++ ('"' :: (':' :: serializeJson v)))) ++ ('\x7d' :: rest) = _
        simp [List.append_assoc]
      rw [hshape]
      have hstr := parseStringBody_escape k (':' :: (serializeJson v ++ ('\x7d' :: rest))) hks
      have hv := parseValue_ser f v ('\x7d' :: rest) hwv rfl hfv
      simp only [parseMembers,
        show skipWs ('"' :: (escapeString k ++ ('"' :: (':' :: (serializeJson v ++ ('\x7d' :: rest))))))
          = '"' :: (escapeString k ++ ('"' :: (':' :: (serializeJson v ++ ('\x7d' :: rest)))))
          from rfl]
      rw [hstr]
      simp only [show skipWs (':' :: (serializeJson v ++ ('\x7d' :: rest)))
          = ':' :: (serializeJson v ++ ('\x7d' :: rest)) from rfl]
      rw [hv]
      simp only [show skipWs ('\x7d' :: rest) = '\x7d' :: rest from rfl]
      simp
    | (k, v) :: kv2 :: kvs3 =>
      have hwsplit : ((strOk k && jsonWf v) && jsonWfMembers (kv2 :: kvs3)) = true := hwf
      have hks : strOk k = true :=
        ((Bool.and_eq_true _ _ |>.mp (Bool.and_eq_true _ _ |>.mp hwsplit).1)).1
      have hwv : jsonWf v = true :=
        ((Bool.and_eq_true _ _ |>.mp (Bool.and_eq_true _ _ |>.mp hwsplit).1)).2
      have hwrest : jsonWfMembers (kv2 :: kvs3) = true :=
        (Bool.and_eq_true _ _ |>.mp hwsplit).2
      have hfsplit : jfuelMembers ((k, v) :: kv2 :: kvs3)
          = 1 + max (jfuel v) (jfuelMembers (kv2 :: kvs3)) := rfl
      have hfv : jfuel v ≤ f := by omega
      have hfrest : jfuelMembers (kv2 :: kvs3) ≤ f := by omega
      have hshape : serializeMembers ((k, v) :: kv2 :: kvs3) ++ ('\x7d' :: rest)
          = '"' :: (escapeString k ++ ('"' :: (':' :: (serializeJson v
              ++ (',' :: (serializeMembers (kv2 :: kvs3) ++ ('\x7d' :: rest))))))) := by
        show (('"' :: (escapeString k ++ ('"' :: (':' :: serializeJson v))))
            ++ (',' :: serializeMembers (kv2 :: kvs3))) ++ ('\x7d' :: rest) = _
        simp [List.append_assoc]
      rw [hshape]
      have hstr := parseStringBody_escape k
        (':' :: (serializeJson v ++ (',' :: (serializeMembers (kv2 :: kvs3) ++ ('\x7d' :: rest)))))
        hks
      have hv := parseValue_ser f v
        (',' :: (serializeMembers (kv2 :: kvs3) ++ ('\x7d' :: rest))) hwv rfl hfv
      have hrec := parseMembers_ser f (kv2 :: kvs3) (acc ++ [(k, v)]) rest hwrest
        (by simp) hfrest
      simp only [parseMembers,
        show skipWs ('"' :: (escapeString k ++ ('"' :: (':' :: (serializeJson v
              ++ (',' :: (serializeMembers (kv2 :: kvs3) ++ ('\x7d' :: rest))))))))
          = '"' :: (escapeString k ++ ('"' :: (':' :: (serializeJson v
              ++ (',' :: (serializeMembers (kv2 :: kvs3) ++ ('\x7d' :: rest)))))))
          from rfl]
      rw [hstr]
      simp only [show skipWs (':' :: (serializeJson v
            ++ (',' :: (serializeMembers (kv2 :: kvs3) ++ ('\x7d' :: rest)))))
          = ':' :: (serializeJson v
            ++ (',' :: (serializeMembers (kv2 :: kvs3) ++ ('\x7d' :: rest)))) from rfl]
      rw [hv]
      simp only [show skipWs (',' :: (serializeMembers (kv2 :: kvs3) ++ ('\x7d' :: rest)))
          = ',' :: (serializeMembers (kv2 :: kvs3) ++ ('\x7d' :: rest)) from rfl]
      rw [show (acc ++ [(k, v)]) ++ (kv2 :: kvs3) = acc ++ ((k, v) :: kv2 :: kvs3) by simp]
        at hrec
      simp [hrec]
end

theorem parseJson_serializeJson (v : Json) (h : jsonWf v = true) :
    parseJson (serializeJson v) = some v := by
  have hfuel := jfuel_le_len v
  have hp := parseValue_ser ((serializeJson v).length + 1) v [] h rfl hfuel
  rw [List.append_nil] at hp
  simp [parseJson, hp, skipWs]

/-! ### Fenced-block lemmas -/

theorem startsWithL_bt_false (c : Char) (hc : ¬(c = '`')) (X : List Char) :
    startsWithL tripleBacktick (c :: X) = false := by
  have hd : decide ('`' = c) = false := decide_eq_false (fun h => hc h.symm)
  show (decide ('`' = c) && startsWithL ['`', '`'] X) = false
  rw [hd]
  rfl

theorem splitAtFence_no_bt :
    ∀ (a : List Char), (∀ c ∈ a, ¬(c = '`')) →
      splitAtFence (a ++ ('\n' :: (tripleBacktick ++ []))) = some (a ++ ['\n']) := by
  intro a
  induction a with
  | nil =>
    intro _
    rfl
  | cons c a2 ih =>
    intro ha
    have hc := ha c (List.mem_cons_self c a2)
    have hsw := startsWithL_bt_false c hc (a2 ++ ('\n' :: (tripleBacktick ++ [])))
    rw [splitAtFence.eq_def]
    simp only [List.cons_append, hsw, Bool.false_eq_true, if_false]
    rw [ih (fun x hx => ha x (List.mem_cons_of_mem _ hx))]

theorem fenceInterior_no_bt :
    ∀ (l : List Char), (∀ c ∈ l, ¬(c = '`')) → fenceInterior l = none := by
  intro l
  induction l with
  | nil => intro _; rfl
  | cons c rest ih =>
    intro hl
    have hc := hl c (List.mem_cons_self c rest)
    have hsw := startsWithL_bt_false c hc rest
    rw [fenceInterior.eq_def]
    simp only [fenceAttempt, hsw, Bool.false_eq_true, if_false]
    exact ih (fun x hx => hl x (List.mem_cons_of_mem _ hx))

theorem dropTrailingWs_append_nl (a : List Char) (c : Char)
    (hc : isJsWhitespace c = false) :
    dropTrailingWs ((a ++ [c]) ++ ['\n']) = a ++ [c] := by
  simp [dropTrailingWs, List.dropWhile_cons, hc,
    show isJsWhitespace '\n' = true from by decide]

theorem fenceAttempt_wrap (l : List Char) (tag : Bool)
    (hhead : ∃ c cs, l = c :: cs ∧ isJsWhitespace c = false)
    (hlast : ∃ a c, l = a ++ [c] ∧ isJsWhitespace c = false)
    (hbt : ∀ c ∈ l, ¬(c = '`')) :
    fenceAttempt (fenceWrap tag l) = some l := by
  obtain ⟨c0, cs0, hc0, hws0⟩ := hhead
  obtain ⟨a1, c1, hc1, hws1⟩ := hlast
  have hdrop : (l ++ ('\n' :: tripleBacktick)).dropWhile isJsWhitespace
      = l ++ ('\n' :: tripleBacktick) := by
    rw [hc0]
    show ((c0 :: cs0) ++ ('\n' :: tripleBacktick)).dropWhile isJsWhitespace = _
    simp [List.dropWhile_cons, hws0]
  have hsplit : splitAtFence (l ++ ('\n' :: tripleBacktick)) = some (l ++ ['\n']) := by
    have h := splitAtFence_no_bt l hbt
    rw [show tripleBacktick ++ ([] : List Char) = tripleBacktick by simp] at h
    exact h
  have htrail : dropTrailingWs (l ++ ['\n']) = l := by
    rw [hc1]
    rw [show (a1 ++ [c1]) ++ ['\n'] = (a1 ++ [c1]) ++ ['\n'] from rfl]
    rw [dropTrailingWs_append_nl a1 c1 hws1]
  cases tag
  · show fenceAttempt ('`' :: '`' :: '`' :: ('\n' :: (l ++ ('\n' :: tripleBacktick)))) = some l
    rw [fenceAttempt]
    simp only [show startsWithL tripleBacktick
        ('`' :: '`' :: '`' :: ('\n' :: (l ++ ('\n' :: tripleBacktick)))) = true from rfl,
      if_true]
    show (match splitAtFence ((l ++ ('\n' :: tripleBacktick)).dropWhile isJsWhitespace) with
          | none => none
          | some p => some (dropTrailingWs p)) = some l
    rw [hdrop, hsplit]
    show some (dropTrailingWs (l ++ ['\n'])) = some l
    rw [htrail]
  · show fenceAttempt
        ('`' :: '`' :: '`' :: ('j' :: 's' :: 'o' :: 'n' :: ('\n' :: (l ++ ('\n' :: tripleBacktick)))))
        = some l
    rw [fenceAttempt]
    simp only [show startsWithL tripleBacktick
        ('`' :: '`' :: '`' :: ('j' :: 's' :: 'o' :: 'n' :: ('\n' :: (l ++ ('\n' :: tripleBacktick)))))
        = true from rfl, if_true]
    show (match splitAtFence ((l ++ ('\n' :: tripleBacktick)).dropWhile isJsWhitespace) with
          | none => none
          | some p => some (dropTrailingWs p)) = some l
    rw [hdrop, hsplit]
    show some (dropTrailingWs (l ++ ['\n'])) = some l
    rw [htrail]

theorem fenceInterior_fenceWrap (l : List Char) (tag : Bool)
    (hhead : ∃ c cs, l = c :: cs ∧ isJsWhitespace c = false)
    (hlast : ∃ a c, l = a ++ [c] ∧ isJsWhitespace c = false)
    (hbt : ∀ c ∈ l, ¬(c = '`')) :
    fenceInterior (fenceWrap tag l) = some l := by
  have ha := fenceAttempt_wrap l tag hhead hlast hbt
  cases tag
  · show fenceInterior ('`' :: ('`' :: '`' :: ('\n' :: (l ++ ('\n' :: tripleBacktick))))) = some l
    rw [fenceInterior.eq_def]
    rw [show ('`' :: '`' :: ('\n' :: (l ++ ('\n' :: tripleBacktick))) : List Char)
        = '`' :: '`' :: ('\n' :: (l ++ ('\n' :: tripleBacktick))) from rfl]
    show (match fenceAttempt ('`' :: '`' :: '`' :: ('\n' :: (l ++ ('\n' :: tripleBacktick)))) with
          | some cap => some cap
          | none => fenceInterior ('`' :: '`' :: ('\n' :: (l ++ ('\n' :: tripleBacktick))))) = some l
    rw [show fenceAttempt ('`' :: '`' :: '`' :: ('\n' :: (l ++ ('\n' :: tripleBacktick)))) = some l from ha]
  · show fenceInterior
        ('`' :: ('`' :: '`' :: ('j' :: 's' :: 'o' :: 'n' :: ('\n' :: (l ++ ('\n' :: tripleBacktick))))))
        = some l
    rw [fenceInterior.eq_def]
    show (match fenceAttempt
            ('`' :: '`' :: '`' :: ('j' :: 's' :: 'o' :: 'n' :: ('\n' :: (l ++ ('\n' :: tripleBacktick))))) with
          | some cap => some cap
          | none => fenceInterior
              ('`' :: '`' :: ('j' :: 's' :: 'o' :: 'n' :: ('\n' :: (l ++ ('\n' :: tripleBacktick)))))) = some l
    rw [show fenceAttempt
        ('`' :: '`' :: '`' :: ('j' :: 's' :: 'o' :: 'n' :: ('\n' :: (l ++ ('\n' :: tripleBacktick)))))
        = some l from ha]

theorem parseJson_fenceWrap_none (tag : Bool) (l : List Char) :
    parseJson (fenceWrap tag l) = none := by
  cases tag <;> rfl

/-! ### Brace-heuristic lemmas -/

theorem firstIdxAux_append (c : Char) :
    ∀ (a r : List Char) (i : Nat), (∀ x ∈ a, ¬(x = c)) →
      firstIdxAux c (a ++ (c :: r)) i = some (i + a.length) := by
  intro a
  induction a with
  | nil =>
    intro r i _
    simp [firstIdxAux]
  | cons x a2 ih =>
    intro r i ha
    have hx := ha x (List.mem_cons_self x a2)
    show firstIdxAux c (x :: (a2 ++ (c :: r))) i = some (i + (a2.length + 1))
    rw [firstIdxAux]
    rw [if_neg hx, ih r (i + 1) (fun y hy => ha y (List.mem_cons_of_mem _ hy))]
    congr 1
    omega

theorem take_append_len {α : Type} :
    ∀ (l1 l2 : List α) (n : Nat), (l1 ++ l2).take (l1.length + n) = l1 ++ l2.take n := by
  intro l1
  induction l1 with
  | nil => intro l2 n; simp
  | cons x l1 ih =>
    intro l2 n
    show (x :: (l1 ++ l2)).take (l1.length + 1 + n) = x :: (l1 ++ l2.take n)
    rw [show l1.length + 1 + n = (l1.length + n) + 1 by omega]
    rw [List.take_succ_cons, ih l2 n]

/-! ### Claim C4 (corrected)

The original claim quantifies the fenced round-trip over every valid JSON
value; a string value containing a backtick fence breaks the regex
capture (the lazy group stops at the backticks inside the serialized
string), after which every extraction attempt fails. -/


/-- Counterexample to C4 as stated: the fenced round-trip fails for a
well-formed string value containing three backticks — the extractor
raises its parse failure instead of returning the value. -/
theorem claim_C4_counterexample :
    jsonWf c4CexValue = true
    ∧ sanitizeAndParseJson (fenceWrap true (serializeJson c4CexValue))
        = Except.error sanitizeFailMsg
    ∧ sanitizeAndParseJson (fenceWrap true (serializeJson c4CexValue))
        ≠ Except.ok c4CexValue := by
  refine ⟨rfl, rfl, ?_⟩
  intro h
  rw [show sanitizeAndParseJson (fenceWrap true (serializeJson c4CexValue))
      = Except.error sanitizeFailMsg from rfl] at h
  exact Except.noConfusion h

/-- Claim C4 as amended: the JSON extractor round-trips every well-formed
value (strings without unrepresentable control characters, integer
numbers): `extract (serialize v) = v`; the same holds when the serialized
form is wrapped in a fenced code block (optionally tagged `json`)
provided the serialized text contains no backtick, and, for an object
value, when it is surrounded by prose that contains no backtick, whose
leading part contains no opening brace and whose trailing part contains
no closing brace, and that makes the whole text invalid JSON; the
extractor is a pure function, hence deterministic. -/
theorem claim_C4_json_roundtrip :
    (∀ v : Json, jsonWf v = true →
      sanitizeAndParseJson (serializeJson v) = Except.ok v)
    ∧ (∀ (v : Json) (tag : Bool), jsonWf v = true →
        (∀ c ∈ serializeJson v, ¬(c = '`')) →
        sanitizeAndParseJson (fenceWrap tag (serializeJson v)) = Except.ok v)
    ∧ (∀ (kvs : List (List Char × Json)) (p1 p2 : List Char),
        jsonWf (Json.obj kvs) = true →
        (∀ c ∈ serializeJson (Json.obj kvs), ¬(c = '`')) →
        (∀ c ∈ p1, ¬(c = '\x7b') ∧ ¬(c = '`')) →
        (∀ c ∈ p2, ¬(c = '\x7d') ∧ ¬(c = '`')) →
        (parseJson (p1 ++ serializeJson (Json.obj kvs) ++ p2)).isNone = true →
        sanitizeAndParseJson (p1 ++ serializeJson (Json.obj kvs) ++ p2)
          = Except.ok (Json.obj kvs)) := by
  refine ⟨?_, ?_, ?_⟩
  · intro v hwf
    simp [sanitizeAndParseJson, parseJson_serializeJson v hwf]
  · intro v tag hwf hbt
    have h1 := parseJson_fenceWrap_none tag (serializeJson v)
    have hhead : ∃ c cs, serializeJson v = c :: cs ∧ isJsWhitespace c = false := by
      obtain ⟨c, cs, hc, hws, _, _⟩ := serializeJson_cons v
      exact ⟨c, cs, hc, hws⟩
    have h2 := fenceInterior_fenceWrap (serializeJson v) tag hhead
      (serializeJson_last v) hbt
    simp [sanitizeAndParseJson, h1, h2, parseJson_serializeJson v hwf]
  · intro kvs p1 p2 hwf hbt hp1 hp2 hwhole
    have hser : serializeJson (Json.obj kvs)
        = '\x7b' :: (serializeMembers kvs ++ ['\x7d']) := rfl
    have htext : (p1 ++ serializeJson (Json.obj kvs)) ++ p2
        = p1 ++ ('\x7b' :: (serializeMembers kvs ++ ('\x7d' :: p2))) := by
      rw [hser]
      simp [List.append_assoc]
    have hnone : parseJson ((p1 ++ serializeJson (Json.obj kvs)) ++ p2) = none :=
      Option.isNone_iff_eq_none.mp hwhole
    have hfence : fenceInterior ((p1 ++ serializeJson (Json.obj kvs)) ++ p2) = none := by
      apply fenceInterior_no_bt
      intro c hc
      rcases List.mem_append.mp hc with hc2 | hc2
      · rcases List.mem_append.mp hc2 with hc3 | hc3
        · exact (hp1 c hc3).2
        · exact hbt c hc3
      · exact (hp2 c hc2).2
    have hfirst : firstIdxOf '\x7b' ((p1 ++ serializeJson (Json.obj kvs)) ++ p2)
        = some p1.length := by
      rw [htext]
      have := firstIdxAux_append '\x7b' p1 (serializeMembers kvs ++ ('\x7d' :: p2)) 0
        (fun x hx => (hp1 x hx).1)
      rw [show (0 : Nat) + p1.length = p1.length by omega] at this
      exact this
    have hrev : ((p1 ++ serializeJson (Json.obj kvs)) ++ p2).reverse
        = p2.reverse ++ ('\x7d' :: ((serializeMembers kvs).reverse ++ ('\x7b' :: p1.reverse))) := by
      rw [htext]
      simp [List.reverse_append, List.append_assoc]
    have hlen : ((p1 ++ serializeJson (Json.obj kvs)) ++ p2).length
        = p1.length + (serializeMembers kvs).length + 2 + p2.length := by
      rw [htext]
      simp only [List.length_append, List.length_cons]
      omega
    have hlast : lastIdxOf '\x7d' ((p1 ++ serializeJson (Json.obj kvs)) ++ p2)
        = some (p1.length + (serializeMembers kvs).length + 1) := by
      rw [lastIdxOf, hrev]
      have haux := firstIdxAux_append '\x7d' p2.reverse
        ((serializeMembers kvs).reverse ++ ('\x7b' :: p1.reverse)) 0
        (fun x hx => (hp2 x (List.mem_reverse.mp hx)).1)
      rw [haux]
      simp only [List.length_reverse, hlen, Option.some.injEq]
      omega
    have hsub : jsSubstring ((p1 ++ serializeJson (Json.obj kvs)) ++ p2) p1.length
        (p1.length + (serializeMembers kvs).length + 1 + 1)
        = serializeJson (Json.obj kvs) := by
      rw [jsSubstring, htext]
      rw [show p1.length + (serializeMembers kvs).length + 1 + 1
          = p1.length + ((serializeMembers kvs).length + 2) by omega]
      rw [take_append_len p1 ('\x7b' :: (serializeMembers kvs ++ ('\x7d' :: p2)))
        ((serializeMembers kvs).length + 2)]
      rw [show ((serializeMembers kvs).length + 2)
          = ((serializeMembers kvs).length + 1) + 1 by omega]
      rw [List.take_succ_cons]
      rw [show (serializeMembers kvs).length + 1 = (serializeMembers kvs).length + 1 from rfl]
      rw [take_append_len (serializeMembers kvs) ('\x7d' :: p2) 1]
      rw [List.drop_left]
      rw [hser]
      rfl
    have hparse := parseJson_serializeJson (Json.obj kvs) hwf
    have hbrace : braceHeuristic ((p1 ++ serializeJson (Json.obj kvs)) ++ p2)
        = Except.ok (Json.obj kvs) := by
      have hlt : p1.length < p1.length + (serializeMembers kvs).length + 1 := by omega
      have hsub2 : jsSubstring (p1 ++ (serializeJson (Json.obj kvs) ++ p2)) p1.length
          (p1.length + (serializeMembers kvs).length + 1 + 1)
          = serializeJson (Json.obj kvs) := by
        rw [← List.append_assoc]
        exact hsub
      rw [braceHeuristic, hfirst, hlast]
      simp [hlt, hsub2, hparse]
    show sanitizeAndParseJson ((p1 ++ serializeJson (Json.obj kvs)) ++ p2) = _
    rw [sanitizeAndParseJson, hnone, hfence, hbrace]


/-- Witness for the amended C4 at a concrete object: plain, fenced and
prose-wrapped forms all round-trip. -/
theorem claim_C4_json_roundtrip_witness :
    sanitizeAndParseJson (serializeJson c4WitnessValue) = Except.ok c4WitnessValue
    ∧ sanitizeAndParseJson (fenceWrap true (serializeJson c4WitnessValue))
        = Except.ok c4WitnessValue
    ∧ sanitizeAndParseJson
        (("Sure: ".data) ++ serializeJson c4WitnessValue ++ (" done.".data))
        = Except.ok c4WitnessValue := by
  have h := claim_C4_json_roundtrip
  refine ⟨h.1 c4WitnessValue (by decide), h.2.1 c4WitnessValue true (by decide) (by decide), ?_⟩
  exact h.2.2 [(("a".data), Json.num 1)] ("Sure: ".data) (" done.".data)
    (by decide) (by decide) (by decide) (by decide) (by decide)

end AhmadAI
